import Mathlib

/-!
Verification of the chat-history repair tool (`fix_chat_history.py`) against its
specification. The development shallowly embeds the tool's core logic:

* session-id ⟷ cache-resource encoding (`_session_id_to_resource`, and the
  scanner's decoding in `WorkspaceInfo.__init__`),
* the metadata extractor for both record formats (`parse_jsonl_session` and the
  legacy-snapshot branch of `repair_workspace`),
* the index reconciliation loop of `repair_workspace`,
* the cache synchronizer `_update_agent_sessions_cache`,
* the duplicate-namespace merger `_merge_one_workspace`,
* the database write script of a non-dry repair run.

Strings are modelled as `List Char`.  Session ids are modelled by their UTF-8
byte sequences (`List Nat`, each byte < 256): the Python code turns the id
string into bytes with `.encode()` before base64-encoding it, and turns decoded
bytes back into a string with `.decode()`; the embedding works at the byte
level, which is faithful because UTF-8 encoding is a bijection onto its range.
-/

/-! ## Python-style string helpers -/

/-- Python `str.strip()` whitespace predicate, restricted to the ASCII
whitespace characters that occur in the data handled by the tool. -/
def isPyWS (c : Char) : Bool :=
  c = ' ' || c = '\t' || c = '\n' || c = '\r' || c = '\x0b' || c = '\x0c'

/-- Python `s.strip()`. -/
def pyStrip (s : List Char) : List Char :=
  ((s.dropWhile isPyWS).reverse.dropWhile isPyWS).reverse

/-- Python `s.isspace()`: non-empty and all whitespace. -/
def pyIsSpace (s : List Char) : Bool :=
  !s.isEmpty && s.all isPyWS

/-- Python substring containment `pat in s`. -/
def containsSub (pat : List Char) : List Char → Bool
  | [] => pat.isPrefixOf []
  | c :: rest => pat.isPrefixOf (c :: rest) || containsSub pat rest

/-- Python `s.split("/")` (single-character separator). -/
def splitSlash : List Char → List (List Char)
  | [] => [[]]
  | c :: rest =>
    match splitSlash rest with
    | [] => [[]]
    | h :: t => if c = '/' then [] :: h :: t else (c :: h) :: t

/-! ## Base64

`_session_id_to_resource` uses `base64.urlsafe_b64encode(...).rstrip("=")`;
the workspace scanner decodes cache resources with plain `base64.b64decode`
(standard alphabet, padding mandatory, characters outside the standard
alphabet discarded before the padding check — CPython's non-strict
`binascii.a2b_base64`; the embedding covers the padding-free inputs produced
by the encoder, where `=` never occurs). -/

/-- The URL-safe base64 alphabet used by `base64.urlsafe_b64encode`. -/
def b64UrlAlphabet : List Char :=
  "ABCDEFGHIJKLMNOPQRSTUVWXYZabcdefghijklmnopqrstuvwxyz0123456789-_".data

/-- The standard base64 alphabet used by `base64.b64decode`. -/
def b64StdAlphabet : List Char :=
  "ABCDEFGHIJKLMNOPQRSTUVWXYZabcdefghijklmnopqrstuvwxyz0123456789+/".data

/-- Character for a 6-bit group under the URL-safe alphabet. -/
def b64UrlChar (n : Nat) : Char := b64UrlAlphabet.getD n '_'

/-- Decode one character under the URL-safe alphabet (proof-side inverse). -/
def b64UrlVal (c : Char) : Option Nat :=
  b64UrlAlphabet.findIdx? (fun x => x = c)

/-- Decode one character under the standard alphabet (as `b64decode` does). -/
def b64StdVal (c : Char) : Option Nat :=
  b64StdAlphabet.findIdx? (fun x => x = c)

/-- `base64.urlsafe_b64encode` on a byte string: 3-byte chunks become 4
characters; a 1- or 2-byte tail is padded with `=`. -/
def encB64 : List Nat → List Char
  | [] => []
  | [b1] => [b64UrlChar (b1 / 4), b64UrlChar (b1 % 4 * 16), '=', '=']
  | [b1, b2] =>
    [b64UrlChar (b1 / 4), b64UrlChar (b1 % 4 * 16 + b2 / 16),
     b64UrlChar (b2 % 16 * 4), '=']
  | b1 :: b2 :: b3 :: rest =>
    b64UrlChar (b1 / 4) :: b64UrlChar (b1 % 4 * 16 + b2 / 16) ::
    b64UrlChar (b2 % 16 * 4 + b3 / 64) :: b64UrlChar (b3 % 64) :: encB64 rest

/-- Python `s.rstrip("=")`. -/
def rstripEq (s : List Char) : List Char :=
  (s.reverse.dropWhile (fun c => c = '=')).reverse

/-- `base64.urlsafe_b64encode(x).decode().rstrip("=")` — the encoding used in
`_session_id_to_resource` (source line 461). -/
def urlsafeB64NoPad (bs : List Nat) : List Char := rstripEq (encB64 bs)

/-- Group-of-four decoding step of `base64.b64decode` (standard alphabet). -/
def decB64Groups : List Char → Option (List Nat)
  | [] => some []
  | c1 :: c2 :: c3 :: c4 :: rest =>
    match b64StdVal c1, b64StdVal c2, b64StdVal c3, b64StdVal c4,
          decB64Groups rest with
    | some n1, some n2, some n3, some n4, some bs =>
      some ((n1 * 4 + n2 / 16) :: (n2 % 16 * 16 + n3 / 4) ::
            (n3 % 4 * 64 + n4) :: bs)
    | _, _, _, _, _ => none
  | _ => none

/-- `base64.b64decode` on a padding-free string: characters outside the
standard alphabet are discarded, then the remaining length must be a multiple
of 4 (otherwise `binascii.Error: Incorrect padding`), then groups of four
characters decode to three bytes. -/
def pyB64Decode (s : List Char) : Option (List Nat) :=
  let t := s.filter (fun c => (b64StdVal c).isSome)
  if t.length % 4 = 0 then decB64Groups t else none

/-- Proof-side total inverse of the unpadded URL-safe encoding (not part of
the source; used to prove the encoding injective). -/
def invB64 : List Char → Option (List Nat)
  | [] => some []
  | c1 :: c2 :: c3 :: c4 :: rest =>
    match b64UrlVal c1, b64UrlVal c2, b64UrlVal c3, b64UrlVal c4,
          invB64 rest with
    | some n1, some n2, some n3, some n4, some bs =>
      some ((n1 * 4 + n2 / 16) :: (n2 % 16 * 16 + n3 / 4) ::
            (n3 % 4 * 64 + n4) :: bs)
    | _, _, _, _, _ => none
  | [c1, c2] =>
    match b64UrlVal c1, b64UrlVal c2 with
    | some n1, some n2 => some [n1 * 4 + n2 / 16]
    | _, _ => none
  | [c1, c2, c3] =>
    match b64UrlVal c1, b64UrlVal c2, b64UrlVal c3 with
    | some n1, some n2, some n3 =>
      some [n1 * 4 + n2 / 16, n2 % 16 * 16 + n3 / 4]
    | _, _, _ => none
  | _ => none

/-! ## Resource identifiers

`_session_id_to_resource` (source lines 458-462) and the scanner's decoding
of `agentSessions.model.cache` resources (source lines 358-365). -/

/-- `_session_id_to_resource`: `vscode-chat-session://local/<b64>` where
`<b64>` is the unpadded URL-safe base64 of the id's bytes. -/
def sessionIdToResource (sessionId : List Nat) : List Char :=
  "vscode-chat-session://local/".data ++ urlsafeB64NoPad sessionId

/-- The scanner's decoding of one cache resource back to a session id
(source lines 358-365): if the string contains
`vscode-chat-session://local/`, split on `/`, take the last segment and
`base64.b64decode` it; any failure means the entry is skipped (`none`).
The final `bytes.decode()` back to a string is the UTF-8 byte/string
coercion, which the byte-level embedding leaves implicit. -/
def decodeCacheResource (resource : List Char) : Option (List Nat) :=
  if containsSub "vscode-chat-session://local/".data resource then
    pyB64Decode ((splitSlash resource).getLastD [])
  else
    none

/-! ### Base64 lemmas -/

theorem b64UrlChar_ne_eqsign (g : Nat) : b64UrlChar g ≠ '=' := by
  by_cases h : g < 64
  · have h64 : ∀ m : Fin 64, b64UrlChar m.val ≠ '=' := by decide
    exact h64 ⟨g, h⟩
  · have hlen : b64UrlAlphabet.length = 64 := by decide
    unfold b64UrlChar
    rw [List.getD_eq_default]
    · decide
    · omega

theorem b64UrlChar_ne_slash (g : Nat) : b64UrlChar g ≠ '/' := by
  by_cases h : g < 64
  · have h64 : ∀ m : Fin 64, b64UrlChar m.val ≠ '/' := by decide
    exact h64 ⟨g, h⟩
  · have hlen : b64UrlAlphabet.length = 64 := by decide
    unfold b64UrlChar
    rw [List.getD_eq_default]
    · decide
    · omega

theorem b64UrlVal_b64UrlChar (g : Nat) (hg : g < 64) :
    b64UrlVal (b64UrlChar g) = some g := by
  have h64 : ∀ m : Fin 64, b64UrlVal (b64UrlChar m.val) = some m.val := by decide
  exact h64 ⟨g, hg⟩

theorem b64StdVal_b64UrlChar (g : Nat) (hg : g < 62) :
    b64StdVal (b64UrlChar g) = some g := by
  have h62 : ∀ m : Fin 62, b64StdVal (b64UrlChar m.val) = some m.val := by decide
  exact h62 ⟨g, hg⟩

theorem b64UrlChar_dash_iff (g : Nat) (hg : g < 64) :
    b64UrlChar g = '-' ↔ g = 62 := by
  have h64 : ∀ m : Fin 64, (b64UrlChar m.val = '-') = (m.val = 62) := by decide
  have := h64 ⟨g, hg⟩
  constructor
  · intro h; have := congrArg (fun p => p) this; simp [h] at this ⊢; omega
  · intro h; subst h; decide

theorem b64UrlChar_underscore_iff (g : Nat) (hg : g < 64) :
    b64UrlChar g = '_' ↔ g = 63 := by
  have h64 : ∀ m : Fin 64, (b64UrlChar m.val = '_') = (m.val = 63) := by decide
  have := h64 ⟨g, hg⟩
  constructor
  · intro h; simp [h] at this ⊢; omega
  · intro h; subst h; decide

/-- Every character produced by `encB64` on a byte list whose length is a
multiple of 3 is `b64UrlChar g` for some 6-bit group `g`. -/
theorem mem_encB64_mod3 (bs : List Nat) (h256 : ∀ b ∈ bs, b < 256)
    (hlen : bs.length % 3 = 0) :
    ∀ c ∈ encB64 bs, ∃ g, g < 64 ∧ c = b64UrlChar g := by
  match bs with
  | [] => intro c hc; simp [encB64] at hc
  | [b1] => simp at hlen
  | [b1, b2] => simp at hlen
  | b1 :: b2 :: b3 :: rest =>
    intro c hc
    have h1 : b1 < 256 := h256 b1 (by simp)
    have h2 : b2 < 256 := h256 b2 (by simp)
    have h3 : b3 < 256 := h256 b3 (by simp)
    rw [show encB64 (b1 :: b2 :: b3 :: rest) =
        b64UrlChar (b1 / 4) :: b64UrlChar (b1 % 4 * 16 + b2 / 16) ::
        b64UrlChar (b2 % 16 * 4 + b3 / 64) :: b64UrlChar (b3 % 64) ::
        encB64 rest from rfl] at hc
    simp only [List.mem_cons] at hc
    rcases hc with h | h | h | h | h
    · exact ⟨b1 / 4, by omega, h⟩
    · exact ⟨b1 % 4 * 16 + b2 / 16, by omega, h⟩
    · exact ⟨b2 % 16 * 4 + b3 / 64, by omega, h⟩
    · exact ⟨b3 % 64, by omega, h⟩
    · exact mem_encB64_mod3 rest (fun b hb => h256 b (by simp [hb]))
        (by simp at hlen ⊢; omega) c h

theorem dropWhile_eq_self_of_head {p : Char → Bool} :
    ∀ s : List Char, (∀ c ∈ s, p c = false) → s.dropWhile p = s := by
  intro s hs
  match s with
  | [] => rfl
  | c :: rest =>
    rw [List.dropWhile_cons, hs c (by simp)]
    simp

theorem rstripEq_eq_self (s : List Char) (h : ∀ c ∈ s, c ≠ '=') :
    rstripEq s = s := by
  unfold rstripEq
  rw [dropWhile_eq_self_of_head s.reverse ?_, List.reverse_reverse]
  intro c hc
  simp only [decide_eq_false_iff_not]
  exact h c (List.mem_reverse.mp hc)

theorem dropWhile_append (p : Char → Bool) :
    ∀ a b : List Char, (a ++ b).dropWhile p =
      if a.dropWhile p = [] then b.dropWhile p else a.dropWhile p ++ b := by
  intro a b
  induction a with
  | nil => simp
  | cons x xs ih =>
    by_cases hx : p x
    · simp only [List.cons_append, List.dropWhile_cons, hx, if_true, ih]
    · simp only [List.cons_append, List.dropWhile_cons, hx]
      simp

theorem rstripEq_append (xs ys : List Char) (h : ∀ c ∈ xs, c ≠ '=') :
    rstripEq (xs ++ ys) = xs ++ rstripEq ys := by
  unfold rstripEq
  rw [List.reverse_append, dropWhile_append]
  by_cases hy : ys.reverse.dropWhile (fun c => c = '=') = []
  · rw [if_pos hy, hy]
    have hx : xs.reverse.dropWhile (fun c => decide (c = '=')) = xs.reverse := by
      apply dropWhile_eq_self_of_head
      intro c hc
      simp only [decide_eq_false_iff_not]
      exact h c (List.mem_reverse.mp hc)
    rw [hx, List.reverse_reverse, List.reverse_nil, List.append_nil]
  · rw [if_neg hy, List.reverse_append, List.reverse_reverse]

/-- On byte lists whose length is a multiple of 3, the encoding emits no
padding, so the `rstrip("=")` is the identity. -/
theorem urlsafeB64NoPad_mod3 (bs : List Nat) (h256 : ∀ b ∈ bs, b < 256)
    (hlen : bs.length % 3 = 0) : urlsafeB64NoPad bs = encB64 bs := by
  unfold urlsafeB64NoPad
  apply rstripEq_eq_self
  intro c hc
  obtain ⟨g, _, hg⟩ := mem_encB64_mod3 bs h256 hlen c hc
  rw [hg]; exact b64UrlChar_ne_eqsign g

theorem encB64_length_mod4 : ∀ bs : List Nat, (encB64 bs).length % 4 = 0 := by
  intro bs
  match bs with
  | [] => rfl
  | [b1] => simp [encB64]
  | [b1, b2] => simp [encB64]
  | b1 :: b2 :: b3 :: rest =>
    have ih := encB64_length_mod4 rest
    rw [show encB64 (b1 :: b2 :: b3 :: rest) =
        b64UrlChar (b1 / 4) :: b64UrlChar (b1 % 4 * 16 + b2 / 16) ::
        b64UrlChar (b2 % 16 * 4 + b3 / 64) :: b64UrlChar (b3 % 64) ::
        encB64 rest from rfl]
    simp only [List.length_cons]
    omega

/-- Standard-alphabet group decoding inverts the encoding as long as no 6-bit
group is 62 or 63 (where the two alphabets disagree). -/
theorem decB64Groups_encB64 (bs : List Nat) (h256 : ∀ b ∈ bs, b < 256)
    (hlen : bs.length % 3 = 0)
    (hnd : ∀ c ∈ encB64 bs, c ≠ '-' ∧ c ≠ '_') :
    decB64Groups (encB64 bs) = some bs := by
  match bs with
  | [] => rfl
  | [b1] => simp at hlen
  | [b1, b2] => simp at hlen
  | b1 :: b2 :: b3 :: rest =>
    have h1 : b1 < 256 := h256 b1 (by simp)
    have h2 : b2 < 256 := h256 b2 (by simp)
    have h3 : b3 < 256 := h256 b3 (by simp)
    have henc : encB64 (b1 :: b2 :: b3 :: rest) =
        b64UrlChar (b1 / 4) :: b64UrlChar (b1 % 4 * 16 + b2 / 16) ::
        b64UrlChar (b2 % 16 * 4 + b3 / 64) :: b64UrlChar (b3 % 64) ::
        encB64 rest := rfl
    have hstd : ∀ g, g < 64 → b64UrlChar g ∈ encB64 (b1 :: b2 :: b3 :: rest) →
        b64StdVal (b64UrlChar g) = some g := by
      intro g hg hmem
      obtain ⟨hd, hu⟩ := hnd _ hmem
      have g62 : g ≠ 62 := fun h => hd ((b64UrlChar_dash_iff g hg).mpr h)
      have g63 : g ≠ 63 := fun h => hu ((b64UrlChar_underscore_iff g hg).mpr h)
      exact b64StdVal_b64UrlChar g (by omega)
    have ih : decB64Groups (encB64 rest) = some rest :=
      decB64Groups_encB64 rest (fun b hb => h256 b (by simp [hb]))
        (by simp at hlen ⊢; omega)
        (fun c hc => hnd c (by rw [henc]; simp [hc]))
    rw [henc]
    show (match b64StdVal (b64UrlChar (b1 / 4)),
          b64StdVal (b64UrlChar (b1 % 4 * 16 + b2 / 16)),
          b64StdVal (b64UrlChar (b2 % 16 * 4 + b3 / 64)),
          b64StdVal (b64UrlChar (b3 % 64)), decB64Groups (encB64 rest) with
      | some n1, some n2, some n3, some n4, some bs =>
        some ((n1 * 4 + n2 / 16) :: (n2 % 16 * 16 + n3 / 4) ::
              (n3 % 4 * 64 + n4) :: bs)
      | _, _, _, _, _ => none) = _
    rw [hstd (b1 / 4) (by omega) (by rw [henc]; simp),
        hstd (b1 % 4 * 16 + b2 / 16) (by omega) (by rw [henc]; simp),
        hstd (b2 % 16 * 4 + b3 / 64) (by omega) (by rw [henc]; simp),
        hstd (b3 % 64) (by omega) (by rw [henc]; simp), ih]
    simp only [Option.some.injEq, List.cons.injEq]
    refine ⟨by omega, by omega, by omega, trivial⟩

/-- The proof-side inverse really inverts the unpadded URL-safe encoding on
arbitrary byte lists. -/
theorem invB64_urlsafeB64NoPad (bs : List Nat) (h256 : ∀ b ∈ bs, b < 256) :
    invB64 (urlsafeB64NoPad bs) = some bs := by
  match bs with
  | [] => rfl
  | [b1] =>
    have h1 : b1 < 256 := h256 b1 (by simp)
    have hy : (decide (b64UrlChar (b1 % 4 * 16) = '=')) = false := by
      simp only [decide_eq_false_iff_not]
      exact b64UrlChar_ne_eqsign _
    have henc : urlsafeB64NoPad [b1] =
        [b64UrlChar (b1 / 4), b64UrlChar (b1 % 4 * 16)] := by
      unfold urlsafeB64NoPad rstripEq
      rw [show encB64 [b1] =
          [b64UrlChar (b1 / 4), b64UrlChar (b1 % 4 * 16), '=', '='] from rfl]
      simp [List.dropWhile, hy]
    rw [henc]
    show (match b64UrlVal (b64UrlChar (b1 / 4)),
          b64UrlVal (b64UrlChar (b1 % 4 * 16)) with
      | some n1, some n2 => some [n1 * 4 + n2 / 16]
      | _, _ => none) = _
    rw [b64UrlVal_b64UrlChar (b1 / 4) (by omega),
        b64UrlVal_b64UrlChar (b1 % 4 * 16) (by omega)]
    simp only [Option.some.injEq, List.cons.injEq]
    refine ⟨by omega, trivial⟩
  | [b1, b2] =>
    have h1 : b1 < 256 := h256 b1 (by simp)
    have h2 : b2 < 256 := h256 b2 (by simp)
    have hy : (decide (b64UrlChar (b2 % 16 * 4) = '=')) = false := by
      simp only [decide_eq_false_iff_not]
      exact b64UrlChar_ne_eqsign _
    have henc : urlsafeB64NoPad [b1, b2] =
        [b64UrlChar (b1 / 4), b64UrlChar (b1 % 4 * 16 + b2 / 16),
         b64UrlChar (b2 % 16 * 4)] := by
      unfold urlsafeB64NoPad rstripEq
      rw [show encB64 [b1, b2] =
          [b64UrlChar (b1 / 4), b64UrlChar (b1 % 4 * 16 + b2 / 16),
           b64UrlChar (b2 % 16 * 4), '='] from rfl]
      simp [List.dropWhile, hy]
    rw [henc]
    show (match b64UrlVal (b64UrlChar (b1 / 4)),
          b64UrlVal (b64UrlChar (b1 % 4 * 16 + b2 / 16)),
          b64UrlVal (b64UrlChar (b2 % 16 * 4)) with
      | some n1, some n2, some n3 =>
        some [n1 * 4 + n2 / 16, n2 % 16 * 16 + n3 / 4]
      | _, _, _ => none) = _
    rw [b64UrlVal_b64UrlChar (b1 / 4) (by omega),
        b64UrlVal_b64UrlChar (b1 % 4 * 16 + b2 / 16) (by omega),
        b64UrlVal_b64UrlChar (b2 % 16 * 4) (by omega)]
    simp only [Option.some.injEq, List.cons.injEq]
    refine ⟨by omega, by omega, trivial⟩
  | b1 :: b2 :: b3 :: rest =>
    have h1 : b1 < 256 := h256 b1 (by simp)
    have h2 : b2 < 256 := h256 b2 (by simp)
    have h3 : b3 < 256 := h256 b3 (by simp)
    have ih : invB64 (urlsafeB64NoPad rest) = some rest :=
      invB64_urlsafeB64NoPad rest (fun b hb => h256 b (by simp [hb]))
    have henc : urlsafeB64NoPad (b1 :: b2 :: b3 :: rest) =
        b64UrlChar (b1 / 4) :: b64UrlChar (b1 % 4 * 16 + b2 / 16) ::
        b64UrlChar (b2 % 16 * 4 + b3 / 64) :: b64UrlChar (b3 % 64) ::
        urlsafeB64NoPad rest := by
      unfold urlsafeB64NoPad
      rw [show encB64 (b1 :: b2 :: b3 :: rest) =
          [b64UrlChar (b1 / 4), b64UrlChar (b1 % 4 * 16 + b2 / 16),
           b64UrlChar (b2 % 16 * 4 + b3 / 64), b64UrlChar (b3 % 64)] ++
          encB64 rest from rfl]
      rw [rstripEq_append]
      · rfl
      · intro c hc
        simp only [List.mem_cons, List.mem_singleton] at hc
        rcases hc with h | h | h | h | h
        all_goals first
          | (rw [h]; exact b64UrlChar_ne_eqsign _)
          | simp at h
    rw [henc]
    show (match b64UrlVal (b64UrlChar (b1 / 4)),
          b64UrlVal (b64UrlChar (b1 % 4 * 16 + b2 / 16)),
          b64UrlVal (b64UrlChar (b2 % 16 * 4 + b3 / 64)),
          b64UrlVal (b64UrlChar (b3 % 64)),
          invB64 (urlsafeB64NoPad rest) with
      | some n1, some n2, some n3, some n4, some bs =>
        some ((n1 * 4 + n2 / 16) :: (n2 % 16 * 16 + n3 / 4) ::
              (n3 % 4 * 64 + n4) :: bs)
      | _, _, _, _, _ => none) = _
    rw [b64UrlVal_b64UrlChar (b1 / 4) (by omega),
        b64UrlVal_b64UrlChar (b1 % 4 * 16 + b2 / 16) (by omega),
        b64UrlVal_b64UrlChar (b2 % 16 * 4 + b3 / 64) (by omega),
        b64UrlVal_b64UrlChar (b3 % 64) (by omega), ih]
    simp only [Option.some.injEq, List.cons.injEq]
    refine ⟨by omega, by omega, by omega, trivial⟩

/-- The unpadded URL-safe encoding is injective on byte strings. -/
theorem urlsafeB64NoPad_inj {a b : List Nat} (ha : ∀ x ∈ a, x < 256)
    (hb : ∀ x ∈ b, x < 256) (h : urlsafeB64NoPad a = urlsafeB64NoPad b) :
    a = b := by
  have := invB64_urlsafeB64NoPad a ha
  rw [h, invB64_urlsafeB64NoPad b hb] at this
  exact (Option.some.inj this).symm

theorem isPrefixOf_append_self : ∀ a b : List Char, a.isPrefixOf (a ++ b) = true := by
  intro a b
  induction a with
  | nil => simp [List.isPrefixOf]
  | cons c rest ih => simp [List.isPrefixOf, ih]

theorem containsSub_of_prefix (pat s : List Char) (h : pat.isPrefixOf s = true) :
    containsSub pat s = true := by
  cases s with
  | nil => exact h
  | cons c rest => simp [containsSub, h]

theorem sessionIdToResource_inj {a b : List Nat} (ha : ∀ x ∈ a, x < 256)
    (hb : ∀ x ∈ b, x < 256) (h : sessionIdToResource a = sessionIdToResource b) :
    a = b := by
  unfold sessionIdToResource at h
  exact urlsafeB64NoPad_inj ha hb (List.append_cancel_left h)

theorem splitSlash_ne_nil : ∀ s : List Char, splitSlash s ≠ [] := by
  intro s
  match s with
  | [] => simp [splitSlash]
  | c :: rest =>
    have := splitSlash_ne_nil rest
    unfold splitSlash
    match hsp : splitSlash rest with
    | [] => exact absurd hsp this
    | h :: t =>
      by_cases hc : c = '/' <;> simp [hc]

theorem splitSlash_no_slash (s : List Char) (h : ∀ c ∈ s, c ≠ '/') :
    splitSlash s = [s] := by
  induction s with
  | nil => rfl
  | cons c rest ih =>
    have hc : c ≠ '/' := h c (by simp)
    unfold splitSlash
    rw [ih (fun x hx => h x (by simp [hx]))]
    simp [hc]

theorem getLastD_of_ne_nil {α : Type} (t : List α) (ht : t ≠ []) (x y : α) :
    t.getLastD x = t.getLastD y := by
  cases t with
  | nil => exact absurd rfl ht
  | cons a l => rw [List.getLastD_cons, List.getLastD_cons]

/-- The last `/`-separated segment of `p ++ "/" ++ enc` is `enc` whenever
`enc` itself contains no slash. -/
theorem getLastD_splitSlash (p enc : List Char) (h : ∀ c ∈ enc, c ≠ '/') :
    (splitSlash (p ++ '/' :: enc)).getLastD [] = enc := by
  suffices hs : ∃ h1 t, splitSlash (p ++ '/' :: enc) = h1 :: t ∧ t ≠ [] ∧
      (h1 :: t).getLastD [] = enc by
    obtain ⟨h1, t, heq, _, hlast⟩ := hs
    rw [heq]; exact hlast
  induction p with
  | nil =>
    refine ⟨[], [enc], ?_, by simp, by simp [List.getLastD_cons]⟩
    show splitSlash ('/' :: enc) = [[], enc]
    unfold splitSlash
    rw [splitSlash_no_slash enc h]
    simp
  | cons c p ih =>
    obtain ⟨h1, t, heq, ht, hlast⟩ := ih
    rw [show (c :: p) ++ '/' :: enc = c :: (p ++ '/' :: enc) from rfl]
    have hstep : splitSlash (c :: (p ++ '/' :: enc)) =
        if c = '/' then [] :: h1 :: t else (c :: h1) :: t := by
      unfold splitSlash
      rw [heq]
    rw [hstep]
    by_cases hc : c = '/'
    · rw [if_pos hc]
      refine ⟨[], h1 :: t, rfl, by simp, ?_⟩
      rw [List.getLastD_cons]
      exact hlast
    · rw [if_neg hc]
      refine ⟨c :: h1, t, rfl, ht, ?_⟩
      rw [List.getLastD_cons, getLastD_of_ne_nil t ht (c :: h1) h1]
      rw [List.getLastD_cons] at hlast
      exact hlast

/-- C1 (corrected, counterexample): the claim `decode(encode(id)) == id` for
every valid session id fails on the code.  For the one-byte id `"a"`
(bytes `[97]`) the encoder emits the unpadded string `YQ`, and the scanner's
`base64.b64decode` — which demands 4-aligned input because the encoder's
stripped padding is never restored — raises `Incorrect padding`, so the
resource decodes to no session id at all, not to the original id. -/
theorem C1_roundtrip_counterexample :
    decodeCacheResource (sessionIdToResource [97]) ≠ some [97] := by decide

/-- C1 (corrected, amended claim): `decode(encode(id)) == id` holds exactly
on the ids the two mismatched codecs agree on: ids whose UTF-8 byte length is
a multiple of 3 (so the stripped padding is empty and the decoder's 4-alignment
check passes) and whose base64 encoding uses none of the two characters where
the URL-safe and standard alphabets diverge (`-` and `_`, which `b64decode`
would silently discard).  Standard 36-character UUID session ids satisfy both
conditions. -/
theorem C1_roundtrip_amended (id : List Nat) (h256 : ∀ b ∈ id, b < 256)
    (hlen : id.length % 3 = 0)
    (hnd : ∀ c ∈ urlsafeB64NoPad id, c ≠ '-' ∧ c ≠ '_') :
    decodeCacheResource (sessionIdToResource id) = some id := by
  have henc := urlsafeB64NoPad_mod3 id h256 hlen
  have hmem : ∀ c ∈ encB64 id, ∃ g, g < 64 ∧ c = b64UrlChar g :=
    mem_encB64_mod3 id h256 hlen
  have hgood : ∀ c ∈ encB64 id, (b64StdVal c).isSome = true := by
    intro c hc
    obtain ⟨g, hg, rfl⟩ := hmem c hc
    rw [henc] at hnd
    obtain ⟨hd, hu⟩ := hnd _ hc
    have g62 : g ≠ 62 := fun h => hd ((b64UrlChar_dash_iff g hg).mpr h)
    have g63 : g ≠ 63 := fun h => hu ((b64UrlChar_underscore_iff g hg).mpr h)
    rw [b64StdVal_b64UrlChar g (by omega)]
    rfl
  have hnoslash : ∀ c ∈ urlsafeB64NoPad id, c ≠ '/' := by
    intro c hc
    rw [henc] at hc
    obtain ⟨g, _, rfl⟩ := hmem c hc
    exact b64UrlChar_ne_slash g
  unfold decodeCacheResource sessionIdToResource
  have hcontains : containsSub "vscode-chat-session://local/".data
      ("vscode-chat-session://local/".data ++ urlsafeB64NoPad id) = true :=
    containsSub_of_prefix _ _ (isPrefixOf_append_self _ _)
  rw [if_pos hcontains]
  rw [show "vscode-chat-session://local/".data =
      "vscode-chat-session://local".data ++ ['/'] by rfl]
  rw [List.append_assoc]
  rw [show ['/'] ++ urlsafeB64NoPad id = '/' :: urlsafeB64NoPad id from rfl]
  rw [getLastD_splitSlash _ _ hnoslash]
  unfold pyB64Decode
  rw [henc]
  simp only [List.filter_eq_self.mpr hgood]
  rw [if_pos (encB64_length_mod4 id)]
  have : ∀ c ∈ encB64 id, c ≠ '-' ∧ c ≠ '_' := by rw [← henc]; exact hnd
  exact decB64Groups_encB64 id h256 hlen this

/-- C1 witness: the round trip computed at the concrete 3-byte id `"abc"`,
whose hypotheses hold by evaluation. -/
theorem C1_roundtrip_witness :
    decodeCacheResource (sessionIdToResource [97, 98, 99]) = some [97, 98, 99] :=
  C1_roundtrip_amended [97, 98, 99] (by decide) (by decide) (by decide)

/-! ## JSON values

JSON values as produced by `json.loads`.  Arrays and objects carry their own
list types so that decidable equality can be derived; objects keep their
fields in file order (CPython dicts preserve insertion order).  Numbers are
integers: the session records handled by the tool carry only integral
timestamps and version numbers. -/

mutual
inductive Json where
  | null
  | bool (b : Bool)
  | num (n : Int)
  | str (s : List Char)
  | arr (elems : JsonList)
  | obj (fields : JsonFields)
  deriving DecidableEq, Repr

inductive JsonList where
  | nil
  | cons (hd : Json) (tl : JsonList)
  deriving DecidableEq, Repr

inductive JsonFields where
  | nil
  | cons (key : List Char) (val : Json) (tl : JsonFields)
  deriving DecidableEq, Repr
end

def JsonList.toList : JsonList → List Json
  | .nil => []
  | .cons h t => h :: JsonList.toList t

def JsonList.len : JsonList → Nat
  | .nil => 0
  | .cons _ t => JsonList.len t + 1

def JsonList.headOpt : JsonList → Option Json
  | .nil => none
  | .cons h _ => some h

def JsonList.lastOpt : JsonList → Option Json
  | .nil => none
  | .cons h .nil => some h
  | .cons _ (.cons h t) => JsonList.lastOpt (.cons h t)

/-- Python `d[k]` / `k in d` lookup on an object's fields. -/
def jLookup : JsonFields → List Char → Option Json
  | .nil, _ => none
  | .cons k v rest, key => if k = key then some v else jLookup rest key

/-- Python `d.get(k, default)`. -/
def jGetD (f : JsonFields) (k : List Char) (d : Json) : Json :=
  (jLookup f k).getD d

/-- Python truthiness of a JSON value. -/
def jTruthy : Json → Bool
  | .null => false
  | .bool b => b
  | .num n => n != 0
  | .str s => !s.isEmpty
  | .arr .nil => false
  | .arr (.cons _ _) => true
  | .obj .nil => false
  | .obj (.cons _ _ _) => true

/-- Python `==` between a JSON value and an integer literal (`bool` is an
`int` subtype in Python, so `False == 0` and `True == 1`). -/
def pyEqInt (j : Json) (m : Int) : Bool :=
  match j with
  | .num n => n = m
  | .bool b => (if b then (1 : Int) else 0) = m
  | _ => false

/-- `entry.get("kind") == m` where the key may be absent (`None == m` is
false). -/
def pyEqIntOpt (v : Option Json) (m : Int) : Bool :=
  match v with
  | some j => pyEqInt j m
  | none => false

/-- Python numeric view of a JSON value, for `<`/`>` comparisons against an
int (`bool` compares as 0/1; anything else raises `TypeError`). -/
def jAsPyNum : Json → Option Int
  | .num n => some n
  | .bool b => some (if b then 1 else 0)
  | _ => none

/-- Python `k == [s]` for a string `s` — a one-element list of an equal
string. -/
def jEqStrList (j : Json) (s : List Char) : Bool :=
  match j with
  | .arr (.cons (.str t) .nil) => t = s
  | _ => false

/-! ## Metadata extractor, incremental (`.jsonl`) format

`parse_jsonl_session`, source lines 154-286. -/

/-- Whether any key of an object contains `"text"` as a substring (iterating
a dict iterates its keys, which are strings). -/
def anyKeyHasText : JsonFields → Bool
  | .nil => false
  | .cons k _ rest => containsSub "text".data k || anyKeyHasText rest

/-- The comprehension `[p.get("text", "") for p in parts if "text" in p]`.
`none` = a Python runtime error while iterating (a `parts` element that is
neither an object nor a string); string elements make `"text" in p` a
substring test, and `p.get` on a string raises. -/
def collectTextParts : JsonList → Option (List Json)
  | .nil => some []
  | .cons p rest =>
    match p with
    | .obj pf =>
      match jLookup pf "text".data with
      | some v => (collectTextParts rest).map (fun vs => v :: vs)
      | none => collectTextParts rest
    | .str s =>
      if containsSub "text".data s then none else collectTextParts rest
    | _ => none

/-- The access pattern `if "message" in req and "parts" in req["message"]:
text_parts = [p.get("text", "") for p in req["message"]["parts"] if "text" in p]`
shared by the extractors (source lines 205-210, 243-248, 668-673).
`none` = a Python runtime error at this access; `some none` = the guard is
false (this request offers no text); `some (some vals)` = the guard passed
with `text_parts = vals`.  Python's dynamic corner cases are transcribed:
`in` on a string is a substring test, iterating a string yields 1-character
strings (which never contain `"text"`), iterating an object iterates its
keys, and `in` on any other non-container raises. -/
def textPartsOfReq (req : Json) : Option (Option (List Json)) :=
  match req with
  | .obj rf =>
    match jLookup rf "message".data with
    | none => some none
    | some (.obj mf) =>
      match jLookup mf "parts".data with
      | none => some none
      | some (.arr ps) => (collectTextParts ps).map some
      | some (.str _) => some none
      | some (.obj pf) => if anyKeyHasText pf then none else some none
      | some _ => none
    | some (.str s) => if containsSub "parts".data s then none else some none
    | some _ => none
  | .str s => if containsSub "message".data s then none else some none
  | _ => none

/-- The `kind:2` small-line title scan (source lines 203-213): find the first
request whose guard passes with a non-empty `text_parts` and take
`text_parts[0].strip()`; a runtime error anywhere is swallowed by the inner
`try` (`none` = no title contributed). -/
def scanReqsForText : JsonList → Option (List Char)
  | .nil => none
  | .cons req rest =>
    match textPartsOfReq req with
    | none => none
    | some none => scanReqsForText rest
    | some (some []) => scanReqsForText rest
    | some (some (v :: _)) =>
      match v with
      | .str s => some (pyStrip s)
      | _ => none

/-- The `kind:2` full-parse title extraction (source lines 199-215): re-parse
the line, require `k == ["requests"]` and `v` a list, then scan `v`;
`none` = no title contributed (including every swallowed exception). -/
def kind2FullParseText (parsed : Option Json) : Option (List Char) :=
  match parsed with
  | some (.obj ef) =>
    if jEqStrList (jGetD ef "k".data (Json.arr .nil)) "requests".data then
      match jGetD ef "v".data (Json.arr .nil) with
      | .arr reqs => scanReqsForText reqs
      | _ => none
    else none
  | _ => none

/-- One line of a `.jsonl` session file, represented by the attributes the
source inspects on the raw text plus its `json.loads` image.
`startsKind2`: the raw text begins with the 9 characters of the splice tag
(source line 187, a textual prefix check).  `big`: the raw line length is
1,000,000 or more (line 198).  `hasMsgParts`: both `"message"` and `"parts"`
occur (quoted) in the raw text (line 196).  `tsMatches`: the integers matched
by the timestamp regex over the raw text, in order (lines 177, 191).
`textMatch`: the capped first-text regex match of line 219, if any.
`parsed`: the result of `json.loads` on the line, `none` for a
`JSONDecodeError` (a blank line behaves identically to `parsed = none`,
`startsKind2 = false`). -/
structure JsonlLine where
  startsKind2 : Bool
  big : Bool
  hasMsgParts : Bool
  tsMatches : List Int
  textMatch : Option (List Char)
  parsed : Option Json
  deriving DecidableEq, Repr

/-- Loop state of `parse_jsonl_session` (source lines 168-174).
`firstRequestText = []` plays the role of both Python `None` and `""`, which
the source only ever distinguishes by truthiness.  `creationDate` and
`initialLocation` hold raw JSON values because the source assigns whatever
the record carries and only interprets `creationDate` numerically at the
end. -/
structure ParseState where
  lastMessageDate : Int
  creationDate : Json
  initialLocation : Json
  isEmpty : Bool
  firstRequestText : List Char
  customTitle : Option (List Char)
  deriving DecidableEq, Repr

def initParseState : ParseState :=
  { lastMessageDate := 0, creationDate := Json.num 0,
    initialLocation := Json.str "panel".data, isEmpty := true,
    firstRequestText := [], customTitle := none }

/-- `for m in timestamp_re.finditer(line): ts = int(m.group(1)); if ts >
last_message_date: last_message_date = ts` (source lines 191-194). -/
def foldMaxTs (cur : Int) : List Int → Int
  | [] => cur
  | t :: rest => foldMaxTs (if t > cur then t else cur) rest

/-- The `kind:2` first-text update (source lines 196-221): only attempted if
no text has stuck yet and the raw line mentions both `"message"` and
`"parts"`; small lines get the full parse, big lines the regex fallback. -/
def kind2TextUpdate (l : JsonlLine) (cur : List Char) : List Char :=
  if cur = [] && l.hasMsgParts then
    if !l.big then
      match kind2FullParseText l.parsed with
      | some t => t
      | none => cur
    else
      match l.textMatch with
      | some t => t
      | none => cur
  else cur

/-- The `if text_parts and not first_request_text: first_request_text =
text_parts[0].strip()` assignment of the `kind:0` branch (source lines
249-250): `cur` is the current `first_request_text` (`[]` = unset), `tp` the
guard's outcome.  `none` = `.strip()` raised on a non-string part. -/
def kind0FirstText (cur : List Char) (tp : Option (List Json)) :
    Option (List Char) :=
  match tp with
  | some (v :: _) =>
    if cur = [] then
      match v with
      | .str t => some (pyStrip t)
      | _ => none
    else some cur
  | _ => some cur

/-- The `kind:0` handling of a non-empty `requests` list (source lines
239-255): mark non-empty, maybe take the first request's text, and lift
`lastMessageDate` to the last request's timestamp.  `none` = an uncaught
exception (ill-shaped request data), which fails the whole parse. -/
def kind0Requests (s : ParseState) (creation initLoc : Json)
    (reqs : JsonList) : Option ParseState :=
  match reqs.headOpt with
  | none => none
  | some firstReq =>
    match textPartsOfReq firstReq with
    | none => none
    | some tp =>
      match kind0FirstText s.firstRequestText tp with
      | none => none
      | some ft =>
        match reqs.lastOpt with
        | none => none
        | some (.obj lf) =>
          match jAsPyNum (jGetD lf "timestamp".data (Json.num 0)) with
          | some ts =>
            some { s with
              isEmpty := false, creationDate := creation,
              initialLocation := initLoc, firstRequestText := ft,
              lastMessageDate :=
                if ts > s.lastMessageDate then ts else s.lastMessageDate }
          | none => none
        | some _ => none

/-- One iteration of the line loop of `parse_jsonl_session` (source lines
180-262).  `none` = an uncaught exception, which the function-level `try`
turns into an overall `None` result. -/
def parseLineStep (s : ParseState) (l : JsonlLine) : Option ParseState :=
  if l.startsKind2 then
    some { s with
      isEmpty := false,
      lastMessageDate := foldMaxTs s.lastMessageDate l.tsMatches,
      firstRequestText := kind2TextUpdate l s.firstRequestText }
  else
    match l.parsed with
    | none => some s
    | some (.obj ef) =>
      if pyEqIntOpt (jLookup ef "kind".data) 0 then
        match jGetD ef "v".data (Json.obj .nil) with
        | .obj vf =>
          match jGetD vf "requests".data (Json.arr .nil) with
          | .arr .nil =>
            some { s with
              creationDate := jGetD vf "creationDate".data (Json.num 0),
              initialLocation :=
                jGetD vf "initialLocation".data (Json.str "panel".data) }
          | .arr (.cons r rs) =>
            kind0Requests s (jGetD vf "creationDate".data (Json.num 0))
              (jGetD vf "initialLocation".data (Json.str "panel".data))
              (.cons r rs)
          | other =>
            if jTruthy other then none
            else some { s with
              creationDate := jGetD vf "creationDate".data (Json.num 0),
              initialLocation :=
                jGetD vf "initialLocation".data (Json.str "panel".data) }
        | _ => none
      else if pyEqIntOpt (jLookup ef "kind".data) 1 then
        match jLookup ef "v".data with
        | some (.str t) =>
          if jEqStrList (jGetD ef "k".data (Json.arr .nil))
              "customTitle".data && !t.isEmpty then
            some { s with customTitle := some t }
          else some s
        | _ => some s
      else some s
    | some _ => none

/-- The extracted summary (`parse_jsonl_session`'s result dict, source lines
279-284; the legacy branch of `repair_workspace` produces the same shape). -/
structure SessionSummary where
  title : List Char
  lastMessageDate : Int
  initialLocation : Json
  isEmpty : Bool
  deriving DecidableEq, Repr

/-- `title[:97] + "..."` truncation for titles over 100 characters
(source lines 269-270). -/
def ellipsize (t : List Char) : List Char :=
  if t.length > 100 then t.take 97 ++ "...".data else t

/-- Title resolution (source lines 264-273): `customTitle` if set, else the
first-request text (ellipsized), else the sentinel; then a whitespace-only
or empty result becomes the sentinel. -/
def resolveTitle (custom : Option (List Char)) (ft : List Char) : List Char :=
  let title :=
    match custom with
    | some ct => ct
    | none => if !ft.isEmpty then ellipsize ft else "Untitled Session".data
  if title.isEmpty || pyIsSpace title then "Untitled Session".data else title

/-- Final steps of `parse_jsonl_session` (source lines 264-284): resolve the
title and fall back to `creationDate` when no message timestamp was seen.
`none` = the `creation_date > 0` comparison raised on a non-numeric value. -/
def finalizeParse (s : ParseState) : Option SessionSummary :=
  if s.lastMessageDate = 0 then
    match jAsPyNum s.creationDate with
    | none => none
    | some c =>
      some { title := resolveTitle s.customTitle s.firstRequestText,
             lastMessageDate := if c > 0 then c else s.lastMessageDate,
             initialLocation := s.initialLocation, isEmpty := s.isEmpty }
  else
    some { title := resolveTitle s.customTitle s.firstRequestText,
           lastMessageDate := s.lastMessageDate,
           initialLocation := s.initialLocation, isEmpty := s.isEmpty }

def parseJsonlLoop : ParseState → List JsonlLine → Option ParseState
  | s, [] => some s
  | s, l :: rest =>
    match parseLineStep s l with
    | none => none
    | some s2 => parseJsonlLoop s2 rest

/-- `parse_jsonl_session` (source lines 154-286) over the lines of a `.jsonl`
file.  `none` corresponds to the `except Exception: return None` at lines
285-286 (for in-memory data: an uncaught type error on ill-shaped records). -/
def parseJsonlSession (lines : List JsonlLine) : Option SessionSummary :=
  match parseJsonlLoop initParseState lines with
  | none => none
  | some s => finalizeParse s

/-! ## Metadata extractor, legacy snapshot (`.json`) format

The legacy branch of `repair_workspace`, source lines 658-685 (the merger
repeats the same code at lines 1328-1351). -/

/-- Extract metadata from a parsed legacy snapshot object.  `none` = an
uncaught exception while reading the record, which makes the caller skip the
session (source line 707).  Transcription notes: the source assigns
`requests[-1].get("timestamp", 0)` without interpreting it, so a record with
a non-numeric timestamp would store that value verbatim; the embedding, whose
`lastMessageDate` is numeric, treats that corner as a failure.  Unlike the
incremental extractor, the legacy branch replaces an empty stripped title
with the sentinel but has no `isspace()` check. -/
def legacyTitleOf (tp : Option (List Json)) : Option (List Char) :=
  match tp with
  | some (v :: _) =>
    match v with
    | .str t =>
      if (ellipsize (pyStrip t)).isEmpty then some "Untitled Session".data
      else some (ellipsize (pyStrip t))
    | _ => none
  | _ => some "Untitled Session".data

/-- Extract metadata from a parsed legacy snapshot object (source lines
658-685); see `legacyTitleOf` for the title rules. -/
def parseLegacySnapshot (j : Json) : Option SessionSummary :=
  match j with
  | .obj sf =>
    let initLoc := jGetD sf "initialLocation".data (Json.str "panel".data)
    match jLookup sf "requests".data with
    | some rv =>
      if jTruthy rv then
        match rv with
        | .arr (.cons r rs) =>
          match textPartsOfReq r with
          | none => none
          | some tp =>
            match legacyTitleOf tp with
            | none => none
            | some title =>
              match (JsonList.cons r rs).lastOpt with
              | some (.obj lf) =>
                match jAsPyNum (jGetD lf "timestamp".data (Json.num 0)) with
                | some ts =>
                  some { title := title, lastMessageDate := ts,
                         initialLocation := initLoc, isEmpty := false }
                | none => none
              | some _ => none
              | none => none
        | _ => none
      else
        some { title := "Untitled Session".data, lastMessageDate := 0,
               initialLocation := initLoc, isEmpty := true }
    | none =>
      some { title := "Untitled Session".data, lastMessageDate := 0,
             initialLocation := initLoc, isEmpty := true }
  | _ => none

/-! ## Reconciliation engine (`repair_workspace`, source lines 601-750) -/

/-- One session id's record files on disk.  `jsonFile = some c` means
`<id>.json` exists and `json.load` produced `c` (`none` inside: the load
raised on malformed JSON text); `jsonlFile = some ls` means `<id>.jsonl`
exists with lines `ls`. -/
structure DiskRecord where
  jsonFile : Option (Option Json)
  jsonlFile : Option (List JsonlLine)
  deriving DecidableEq, Repr

/-- The per-id extraction of `repair_workspace` (source lines 637-688): the
`.jsonl` file is preferred; the `.json` file is the fallback; `none` = the
id is skipped (parse failure, or no file at all). -/
def repairExtract (de : DiskRecord) : Option SessionSummary :=
  match de.jsonlFile with
  | some lines => parseJsonlSession lines
  | none =>
    match de.jsonFile with
    | some (some j) => parseLegacySnapshot j
    | some none => none
    | none => none

/-- One entry of `chat.ChatSessionStore.index` as built at source lines
690-697. -/
structure IndexEntry where
  sessionId : List Nat
  title : List Char
  lastMessageDate : Int
  isImported : Bool
  initialLocation : Json
  isEmpty : Bool
  deriving DecidableEq, Repr

def mkIndexEntry (sid : List Nat) (p : SessionSummary) : IndexEntry :=
  { sessionId := sid, title := p.title, lastMessageDate := p.lastMessageDate,
    isImported := false, initialLocation := p.initialLocation,
    isEmpty := p.isEmpty }

/-- `session_id in entries` on the insertion-ordered entries map. -/
def hasKey (es : List (List Nat × IndexEntry)) (sid : List Nat) : Bool :=
  es.any (fun p => p.1 = sid)

/-- One iteration of the rebuild loop (source lines 632-697): ids already
indexed are skipped, otherwise the record is extracted and an entry inserted;
a failed extraction only reports a warning and skips the id. -/
def repairFoldStep (entries : List (List Nat × IndexEntry))
    (p : List Nat × DiskRecord) : List (List Nat × IndexEntry) :=
  if hasKey entries p.1 then entries
  else
    match repairExtract p.2 with
    | some parsed => entries ++ [(p.1, mkIndexEntry p.1 parsed)]
    | none => entries

/-- The index-rebuild of `repair_workspace` (source lines 613-697): start
from the existing entries unless `removeOrphans` (then from an empty map),
and fold the rebuild step over the on-disk ids (the source iterates them in
sorted order; `disk` stands for that enumeration, one pair per id).  The
existing entries are the parsed content of the persisted index; absent or
malformed content behaves as the empty map (source lines 617-630). -/
def buildEntries (removeOrphans : Bool)
    (existing : List (List Nat × IndexEntry))
    (disk : List (List Nat × DiskRecord)) : List (List Nat × IndexEntry) :=
  (disk.foldl repairFoldStep (if removeOrphans then [] else existing))

/-! ## Spec-side selectors for the extractor claims

These definitions follow the specification's words (title precedence,
request counting) over the embedded line type; the theorems compare the
extractor against them. -/

/-- Spec-side: the customTitle override carried by one line — a `ScalarSet`
(kind 1) record for the `customTitle` path with a non-empty string value. -/
def specCustomTitleOf (l : JsonlLine) : Option (List Char) :=
  if l.startsKind2 then none
  else
    match l.parsed with
    | some (.obj ef) =>
      if pyEqIntOpt (jLookup ef "kind".data) 1 then
        match jLookup ef "v".data with
        | some (.str t) =>
          if jEqStrList (jGetD ef "k".data (Json.arr .nil)) "customTitle".data
              && !t.isEmpty then some t
          else none
        | _ => none
      else none
    | _ => none

/-- Spec-side: the last customTitle override of a record (later records for
the same keyPath override earlier ones). -/
def specLastCustomTitle (lines : List JsonlLine) : Option (List Char) :=
  (lines.filterMap specCustomTitleOf).getLast?

/-- Spec-side: the first-request text one line can contribute: for a tagged
splice line, the full-parse extraction (small lines) or the regex fallback
(big lines); for a snapshot line, the first embedded request's first text
part, stripped. -/
def specTextContribOf (l : JsonlLine) : Option (List Char) :=
  if l.startsKind2 then
    if l.hasMsgParts then
      if !l.big then kind2FullParseText l.parsed else l.textMatch
    else none
  else
    match l.parsed with
    | some (.obj ef) =>
      if pyEqIntOpt (jLookup ef "kind".data) 0 then
        match jGetD ef "v".data (Json.obj .nil) with
        | .obj vf =>
          match jGetD vf "requests".data (Json.arr .nil) with
          | .arr (.cons r _) =>
            match textPartsOfReq r with
            | some (some (Json.str t :: _)) => some (pyStrip t)
            | _ => none
          | _ => none
        | _ => none
      else none
    | _ => none

/-- Spec-side: the derived first-request text of a record — the first
non-empty per-line contribution (an empty contribution does not stick:
Python treats `""` as unset). -/
def specDerivedText (lines : List JsonlLine) : Option (List Char) :=
  ((lines.filterMap specTextContribOf).filter (fun t => !t.isEmpty)).head?

/-- Spec-side: whether one line marks the record non-empty: any line whose
raw text starts with the splice tag, or a snapshot line embedding a
non-empty `requests` list. -/
def specLineMarksNonempty (l : JsonlLine) : Bool :=
  l.startsKind2 ||
  (match l.parsed with
   | some (.obj ef) =>
     pyEqIntOpt (jLookup ef "kind".data) 0 &&
     (match jGetD ef "v".data (Json.obj .nil) with
      | .obj vf =>
        match jGetD vf "requests".data (Json.arr .nil) with
        | .arr (.cons _ _) => true
        | _ => false
      | _ => false)
   | _ => false)

/-- Spec-side: request entries carried by one line (snapshot-embedded
requests, or items of an array splice whose keyPath is `requests`). -/
def specLineRequestCount (l : JsonlLine) : Nat :=
  match l.parsed with
  | some (.obj ef) =>
    if pyEqIntOpt (jLookup ef "kind".data) 0 then
      match jGetD ef "v".data (Json.obj .nil) with
      | .obj vf =>
        match jGetD vf "requests".data (Json.arr .nil) with
        | .arr reqs => reqs.len
        | _ => 0
      | _ => 0
    else if pyEqIntOpt (jLookup ef "kind".data) 2 then
      if jEqStrList (jGetD ef "k".data (Json.arr .nil)) "requests".data then
        match jGetD ef "v".data (Json.arr .nil) with
        | .arr items => items.len
        | _ => 0
      else 0
    else 0
  | _ => 0

/-- Spec-side: total request entries of an incremental record. -/
def specJsonlRequestCount (lines : List JsonlLine) : Nat :=
  (lines.map specLineRequestCount).sum

/-- Spec-side: request entries of a legacy snapshot record. -/
def specLegacyRequestCount (j : Json) : Nat :=
  match j with
  | .obj sf =>
    match jLookup sf "requests".data with
    | some (.arr reqs) => reqs.len
    | _ => 0
  | _ => 0

/-! ### Extractor invariants -/

theorem specCustomTitleOf_nonempty (l : JsonlLine) (t : List Char)
    (h : specCustomTitleOf l = some t) : t.isEmpty = false := by
  unfold specCustomTitleOf at h
  repeat' split at h
  all_goals simp_all

theorem ellipsize_nonempty (t : List Char) (h : t ≠ []) :
    (ellipsize t).isEmpty = false := by
  unfold ellipsize
  split
  · simp
  · simpa using h

theorem kind2TextUpdate_eq (l : JsonlLine) (cur : List Char)
    (hk2 : l.startsKind2 = true) :
    kind2TextUpdate l cur =
      if cur.isEmpty then (specTextContribOf l).getD [] else cur := by
  unfold kind2TextUpdate specTextContribOf
  rw [hk2]
  by_cases hc : cur = []
  · subst hc
    by_cases hm : l.hasMsgParts
    · by_cases hb : l.big
      · simp only [hm, hb, if_true, if_false, Bool.not_true]
        cases l.textMatch <;> simp
      · simp only [hm, hb, if_true, Bool.not_false]
        cases kind2FullParseText l.parsed <;> simp
    · simp [hm]
  · have hce : cur.isEmpty = false := by simpa using hc
    simp [hc, hce]

theorem ifEmpty_nil (cur : List Char) :
    (if cur.isEmpty then ([] : List Char) else cur) = cur := by
  cases cur <;> simp

theorem ifEmptyEq_nil (cur : List Char) :
    (if cur = [] then ([] : List Char) else cur) = cur := by
  cases cur <;> simp

theorem pyEqIntOpt_zero_not_one (v : Option Json)
    (h : pyEqIntOpt v 0 = true) : pyEqIntOpt v 1 = false := by
  cases v with
  | none => simp [pyEqIntOpt] at h
  | some j =>
    cases j with
    | null => simp [pyEqIntOpt, pyEqInt] at h
    | bool b => cases b <;> simp_all [pyEqIntOpt, pyEqInt]
    | num n =>
      simp [pyEqIntOpt, pyEqInt] at h ⊢
      omega
    | str t => simp [pyEqIntOpt, pyEqInt] at h
    | arr a => simp [pyEqIntOpt, pyEqInt] at h
    | obj f => simp [pyEqIntOpt, pyEqInt] at h

theorem kind0FirstText_eq (cur : List Char) (tp : Option (List Json))
    (ft : List Char) (h : kind0FirstText cur tp = some ft) :
    ft = if cur.isEmpty then
      ((match tp with
        | some (Json.str t :: _) => some (pyStrip t)
        | _ => none).getD [])
      else cur := by
  cases tp with
  | none =>
    simp only [kind0FirstText, Option.some.injEq] at h
    subst h
    exact (ifEmpty_nil cur).symm
  | some vs =>
    cases vs with
    | nil =>
      simp only [kind0FirstText, Option.some.injEq] at h
      subst h
      exact (ifEmpty_nil cur).symm
    | cons v vt =>
      by_cases hc : cur = []
      · subst hc
        cases v with
        | str t =>
          have hft2 : pyStrip t = ft := by simpa [kind0FirstText] using h
          rw [← hft2]
          simp
        | null => simp [kind0FirstText] at h
        | bool b => simp [kind0FirstText] at h
        | num n => simp [kind0FirstText] at h
        | arr a => simp [kind0FirstText] at h
        | obj f => simp [kind0FirstText] at h
      · have hce : cur.isEmpty = false := by simpa using hc
        simp only [kind0FirstText, if_neg hc, Option.some.injEq] at h
        subst h
        simp [hce]

theorem kind0Requests_fields (s : ParseState) (c i r : Json) (rs : JsonList)
    (s' : ParseState) (h : kind0Requests s c i (.cons r rs) = some s') :
    s'.customTitle = s.customTitle ∧
    s'.firstRequestText =
      (if s.firstRequestText.isEmpty then
        ((match textPartsOfReq r with
          | some (some (Json.str t :: _)) => some (pyStrip t)
          | _ => none).getD [])
       else s.firstRequestText) ∧
    s'.isEmpty = false := by
  unfold kind0Requests at h
  simp only [JsonList.headOpt] at h
  cases htp : textPartsOfReq r with
  | none => simp [htp] at h
  | some tp =>
    simp only [htp] at h
    cases hft : kind0FirstText s.firstRequestText tp with
    | none => simp [hft] at h
    | some ft =>
      simp only [hft] at h
      have hfe := kind0FirstText_eq _ _ _ hft
      cases hlo : (JsonList.cons r rs).lastOpt with
      | none => simp [hlo] at h
      | some lj =>
        simp only [hlo] at h
        cases lj with
        | obj lf =>
          cases hts : jAsPyNum (jGetD lf "timestamp".data (Json.num 0)) with
          | none => simp [hts] at h
          | some ts =>
            simp only [hts, Option.some.injEq] at h
            subst h
            refine ⟨rfl, ?_, rfl⟩
            show ft = _
            rw [hfe]
            by_cases hemp : s.firstRequestText.isEmpty = true
            · rw [if_pos hemp, if_pos hemp]
              cases tp with
              | none => rfl
              | some vs =>
                cases vs with
                | nil => rfl
                | cons v vt => cases v <;> rfl
            · rw [if_neg hemp, if_neg hemp]
        | null => simp at h
        | bool b => simp at h
        | num n => simp at h
        | str t => simp at h
        | arr a => simp at h

theorem parseLineStep_fields (s : ParseState) (l : JsonlLine) (s' : ParseState)
    (h : parseLineStep s l = some s') :
    s'.customTitle = (match specCustomTitleOf l with
      | some t => some t
      | none => s.customTitle) ∧
    s'.firstRequestText = (if s.firstRequestText.isEmpty
      then (specTextContribOf l).getD [] else s.firstRequestText) ∧
    s'.isEmpty = (s.isEmpty && !specLineMarksNonempty l) := by
  by_cases hk2 : l.startsKind2 = true
  · unfold parseLineStep at h
    rw [if_pos hk2] at h
    replace h := (Option.some.inj h).symm
    subst h
    refine ⟨?_, ?_, ?_⟩
    · show s.customTitle = _
      simp [specCustomTitleOf, hk2]
    · show kind2TextUpdate l s.firstRequestText = _
      exact kind2TextUpdate_eq l s.firstRequestText hk2
    · show false = _
      simp [specLineMarksNonempty, hk2]
  · have hk2f : l.startsKind2 = false := by simpa using hk2
    unfold parseLineStep at h
    rw [if_neg hk2] at h
    cases hp : l.parsed with
    | none =>
      simp only [hp, Option.some.injEq] at h
      subst h
      refine ⟨?_, ?_, ?_⟩ <;>
        simp [specCustomTitleOf, specTextContribOf, specLineMarksNonempty,
              hk2f, hp, ifEmpty_nil, ifEmptyEq_nil]
    | some j =>
      cases j with
      | obj ef =>
        simp only [hp] at h
        by_cases hk0 : pyEqIntOpt (jLookup ef "kind".data) 0 = true
        · rw [if_pos hk0] at h
          have hk1 := pyEqIntOpt_zero_not_one _ hk0
          cases hv : jGetD ef "v".data (Json.obj .nil) with
          | obj vf =>
            simp only [hv] at h
            cases hr : jGetD vf "requests".data (Json.arr .nil) with
            | arr reqs =>
              cases reqs with
              | nil =>
                simp only [hr, Option.some.injEq] at h
                subst h
                refine ⟨?_, ?_, ?_⟩ <;>
                  simp [specCustomTitleOf, specTextContribOf,
                        specLineMarksNonempty, hk2f, hp, hk0, hk1, hv, hr,
                        ifEmpty_nil, ifEmptyEq_nil]
              | cons r rs =>
                simp only [hr] at h
                obtain ⟨h1, h2, h3⟩ := kind0Requests_fields _ _ _ _ _ _ h
                refine ⟨?_, ?_, ?_⟩
                · rw [h1]
                  simp [specCustomTitleOf, hk2f, hp, hk1]
                · rw [h2]
                  simp only [specTextContribOf, hk2f, hp, hk0, hv, hr,
                             Bool.false_eq_true, if_false, if_true]
                · rw [h3]
                  simp [specLineMarksNonempty, hk2f, hp, hk0, hv, hr]
            | null =>
              simp only [hr] at h
              split at h
              · simp at h
              · replace h := (Option.some.inj h).symm
                subst h
                refine ⟨?_, ?_, ?_⟩ <;>
                  simp [specCustomTitleOf, specTextContribOf,
                        specLineMarksNonempty, hk2f, hp, hk0, hk1, hv, hr,
                        ifEmpty_nil, ifEmptyEq_nil]
            | bool b =>
              simp only [hr] at h
              split at h
              · simp at h
              · replace h := (Option.some.inj h).symm
                subst h
                refine ⟨?_, ?_, ?_⟩ <;>
                  simp [specCustomTitleOf, specTextContribOf,
                        specLineMarksNonempty, hk2f, hp, hk0, hk1, hv, hr,
                        ifEmpty_nil, ifEmptyEq_nil]
            | num n =>
              simp only [hr] at h
              split at h
              · simp at h
              · replace h := (Option.some.inj h).symm
                subst h
                refine ⟨?_, ?_, ?_⟩ <;>
                  simp [specCustomTitleOf, specTextContribOf,
                        specLineMarksNonempty, hk2f, hp, hk0, hk1, hv, hr,
                        ifEmpty_nil, ifEmptyEq_nil]
            | str t =>
              simp only [hr] at h
              split at h
              · simp at h
              · replace h := (Option.some.inj h).symm
                subst h
                refine ⟨?_, ?_, ?_⟩ <;>
                  simp [specCustomTitleOf, specTextContribOf,
                        specLineMarksNonempty, hk2f, hp, hk0, hk1, hv, hr,
                        ifEmpty_nil, ifEmptyEq_nil]
            | obj f2 =>
              simp only [hr] at h
              split at h
              · simp at h
              · replace h := (Option.some.inj h).symm
                subst h
                refine ⟨?_, ?_, ?_⟩ <;>
                  simp [specCustomTitleOf, specTextContribOf,
                        specLineMarksNonempty, hk2f, hp, hk0, hk1, hv, hr,
                        ifEmpty_nil, ifEmptyEq_nil]
          | null => simp [hv] at h
          | bool b => simp [hv] at h
          | num n => simp [hv] at h
          | str t => simp [hv] at h
          | arr a => simp [hv] at h
        · have hk0f : pyEqIntOpt (jLookup ef "kind".data) 0 = false := by
            simpa using hk0
          rw [if_neg hk0] at h
          by_cases hk1 : pyEqIntOpt (jLookup ef "kind".data) 1 = true
          · rw [if_pos hk1] at h
            cases hvv : jLookup ef "v".data with
            | none =>
              simp only [hvv, Option.some.injEq] at h
              subst h
              refine ⟨?_, ?_, ?_⟩ <;>
                simp [specCustomTitleOf, specTextContribOf,
                      specLineMarksNonempty, hk2f, hp, hk0f, hk1, hvv,
                      ifEmpty_nil, ifEmptyEq_nil]
            | some vj =>
              cases vj with
              | str t =>
                simp only [hvv] at h
                by_cases hcond : (jEqStrList (jGetD ef "k".data (Json.arr .nil))
                    "customTitle".data && !t.isEmpty) = true
                · rw [if_pos hcond] at h
                  replace h := (Option.some.inj h).symm
                  subst h
                  refine ⟨?_, ?_, ?_⟩ <;>
                    simp [specCustomTitleOf, specTextContribOf,
                          specLineMarksNonempty, hk2f, hp, hk0f, hk1, hvv,
                          hcond, ifEmpty_nil, ifEmptyEq_nil]
                · have hcf : (jEqStrList (jGetD ef "k".data (Json.arr .nil))
                      "customTitle".data && !t.isEmpty) = false := by
                    simpa using hcond
                  rw [if_neg hcond] at h
                  replace h := (Option.some.inj h).symm
                  subst h
                  refine ⟨?_, ?_, ?_⟩ <;>
                    simp [specCustomTitleOf, specTextContribOf,
                          specLineMarksNonempty, hk2f, hp, hk0f, hk1, hvv,
                          hcf, ifEmpty_nil, ifEmptyEq_nil]
              | null =>
                simp only [hvv, Option.some.injEq] at h
                subst h
                refine ⟨?_, ?_, ?_⟩ <;>
                  simp [specCustomTitleOf, specTextContribOf,
                        specLineMarksNonempty, hk2f, hp, hk0f, hk1, hvv,
                        ifEmpty_nil, ifEmptyEq_nil]
              | bool b =>
                simp only [hvv, Option.some.injEq] at h
                subst h
                refine ⟨?_, ?_, ?_⟩ <;>
                  simp [specCustomTitleOf, specTextContribOf,
                        specLineMarksNonempty, hk2f, hp, hk0f, hk1, hvv,
                        ifEmpty_nil, ifEmptyEq_nil]
              | num n =>
                simp only [hvv, Option.some.injEq] at h
                subst h
                refine ⟨?_, ?_, ?_⟩ <;>
                  simp [specCustomTitleOf, specTextContribOf,
                        specLineMarksNonempty, hk2f, hp, hk0f, hk1, hvv,
                        ifEmpty_nil, ifEmptyEq_nil]
              | arr a =>
                simp only [hvv, Option.some.injEq] at h
                subst h
                refine ⟨?_, ?_, ?_⟩ <;>
                  simp [specCustomTitleOf, specTextContribOf,
                        specLineMarksNonempty, hk2f, hp, hk0f, hk1, hvv,
                        ifEmpty_nil, ifEmptyEq_nil]
              | obj f2 =>
                simp only [hvv, Option.some.injEq] at h
                subst h
                refine ⟨?_, ?_, ?_⟩ <;>
                  simp [specCustomTitleOf, specTextContribOf,
                        specLineMarksNonempty, hk2f, hp, hk0f, hk1, hvv,
                        ifEmpty_nil, ifEmptyEq_nil]
          · have hk1f : pyEqIntOpt (jLookup ef "kind".data) 1 = false := by
              simpa using hk1
            rw [if_neg hk1] at h
            replace h := (Option.some.inj h).symm
            subst h
            refine ⟨?_, ?_, ?_⟩ <;>
              simp [specCustomTitleOf, specTextContribOf,
                    specLineMarksNonempty, hk2f, hp, hk0f, hk1f, ifEmpty_nil, ifEmptyEq_nil]
      | null => simp [hp] at h
      | bool b => simp [hp] at h
      | num n => simp [hp] at h
      | str t => simp [hp] at h
      | arr a => simp [hp] at h

theorem getLast?_cons_getLastD {α : Type} :
    ∀ (l : List α) (a : α), (a :: l).getLast? = some (l.getLastD a) := by
  intro l
  induction l with
  | nil => intro a; rfl
  | cons b t ih =>
    intro a
    rw [List.getLast?_cons_cons, ih b, List.getLastD_cons]

theorem parseJsonlLoop_fields :
    ∀ (lines : List JsonlLine) (s s2 : ParseState),
    parseJsonlLoop s lines = some s2 →
    s2.customTitle = (match (lines.filterMap specCustomTitleOf).getLast? with
      | some t => some t
      | none => s.customTitle) ∧
    s2.firstRequestText = (if s.firstRequestText.isEmpty
      then (((lines.filterMap specTextContribOf).filter
        (fun t => !t.isEmpty)).head?).getD []
      else s.firstRequestText) ∧
    s2.isEmpty = (s.isEmpty && !(lines.any specLineMarksNonempty)) := by
  intro lines
  induction lines with
  | nil =>
    intro s s2 h
    simp only [parseJsonlLoop, Option.some.injEq] at h
    subst h
    refine ⟨rfl, ?_, by simp⟩
    simp [ifEmpty_nil, ifEmptyEq_nil]
  | cons l rest ih =>
    intro s s2 h
    rw [show parseJsonlLoop s (l :: rest) =
        (match parseLineStep s l with
         | none => none
         | some s3 => parseJsonlLoop s3 rest) from rfl] at h
    cases hstep : parseLineStep s l with
    | none =>
      simp only [hstep] at h
      exact Option.noConfusion h
    | some s3 =>
      simp only [hstep] at h
      obtain ⟨ihc, ihf, ihe⟩ := ih s3 s2 h
      obtain ⟨sc, sf, se⟩ := parseLineStep_fields s l s3 hstep
      refine ⟨?_, ?_, ?_⟩
      · rw [ihc]
        cases hcl : specCustomTitleOf l with
        | none =>
          rw [List.filterMap_cons_none hcl, sc, hcl]
        | some t =>
          rw [List.filterMap_cons_some hcl]
          rw [getLast?_cons_getLastD]
          rw [List.getLastD_eq_getLast?]
          cases hgl : (rest.filterMap specCustomTitleOf).getLast? with
          | none => simp [sc, hcl]
          | some u => simp
      · rw [ihf]
        by_cases hse : s.firstRequestText.isEmpty = true
        · rw [if_pos hse]
          have hnil : s.firstRequestText = [] := by simpa using hse
          cases hcl : specTextContribOf l with
          | none =>
            rw [List.filterMap_cons_none hcl]
            rw [sf, if_pos hse, hcl]
            simp
          | some t =>
            rw [List.filterMap_cons_some hcl]
            rw [sf, if_pos hse, hcl]
            by_cases hte : t.isEmpty = true
            · have : t = [] := by simpa using hte
              subst this
              simp
            · have hte' : (!t.isEmpty) = true := by simp [hte]
              rw [List.filter_cons_of_pos]
              · simp only [List.head?_cons, Option.getD_some]
                rw [if_neg hte]
              · simpa using hte'
        · have hsf : s3.firstRequestText = s.firstRequestText := by
            rw [sf, if_neg hse]
          rw [if_neg hse, hsf, if_neg hse]
      · rw [ihe, se, List.any_cons]
        cases specLineMarksNonempty l <;> cases rest.any specLineMarksNonempty <;>
          cases s.isEmpty <;> simp

theorem mem_of_head? {α : Type} {l : List α} {a : α} (h : l.head? = some a) :
    a ∈ l := by
  cases l with
  | nil => simp at h
  | cons x xs =>
    simp only [List.head?_cons, Option.some.injEq] at h
    simp [h]

theorem mem_of_getLast? {α : Type} :
    ∀ (l : List α) {a : α}, l.getLast? = some a → a ∈ l := by
  intro l
  induction l with
  | nil => intro a h; simp at h
  | cons x xs ih =>
    intro a h
    cases xs with
    | nil =>
      simp only [List.getLast?_singleton, Option.some.injEq] at h
      simp [h]
    | cons y ys =>
      rw [List.getLast?_cons_cons] at h
      exact List.mem_cons_of_mem x (ih h)

theorem finalizeParse_fields (s : ParseState) (r : SessionSummary)
    (h : finalizeParse s = some r) :
    r.title = resolveTitle s.customTitle s.firstRequestText ∧
    r.isEmpty = s.isEmpty := by
  unfold finalizeParse at h
  split at h
  · split at h
    · exact Option.noConfusion h
    · replace h := (Option.some.inj h).symm
      subst h
      exact ⟨rfl, rfl⟩
  · replace h := (Option.some.inj h).symm
    subst h
    exact ⟨rfl, rfl⟩

/-- C5 (confirmed): title precedence of the incremental extractor.  For every
incremental record that parses: a non-whitespace customTitle override (the
last non-empty ScalarSet value for the `customTitle` path) wins outright; a
whitespace-only override is treated as an absent title, yielding the
sentinel; with no override, the derived first-request text wins, truncated to
at most 100 characters with an ellipsis marker (and itself replaced by the
sentinel when whitespace-only); with neither, the title is the sentinel
`"Untitled Session"`. -/
theorem C5_title_precedence (lines : List JsonlLine) (r : SessionSummary)
    (h : parseJsonlSession lines = some r) :
    (∀ ct, specLastCustomTitle lines = some ct → pyIsSpace ct = false →
       r.title = ct) ∧
    (∀ ct, specLastCustomTitle lines = some ct → pyIsSpace ct = true →
       r.title = "Untitled Session".data) ∧
    (∀ t, specLastCustomTitle lines = none → specDerivedText lines = some t →
       r.title = (if pyIsSpace (ellipsize t) then "Untitled Session".data
                  else ellipsize t)) ∧
    (specLastCustomTitle lines = none → specDerivedText lines = none →
       r.title = "Untitled Session".data) := by
  unfold parseJsonlSession at h
  cases hloop : parseJsonlLoop initParseState lines with
  | none =>
    simp only [hloop] at h
    exact Option.noConfusion h
  | some s2 =>
    simp only [hloop] at h
    obtain ⟨ht, _⟩ := finalizeParse_fields s2 r h
    obtain ⟨hc, hf, _⟩ := parseJsonlLoop_fields lines initParseState s2 hloop
    refine ⟨?_, ?_, ?_, ?_⟩
    · intro ct hct hws
      have hcsome : s2.customTitle = some ct := by
        rw [hc]
        unfold specLastCustomTitle at hct
        simp only [hct]
      have hne : ct.isEmpty = false := by
        have hmem := mem_of_getLast? _ hct
        obtain ⟨line, _, hline⟩ := List.mem_filterMap.mp hmem
        exact specCustomTitleOf_nonempty line ct hline
      rw [ht, hcsome]
      unfold resolveTitle
      simp [hne, hws]
    · intro ct hct hws
      have hcsome : s2.customTitle = some ct := by
        rw [hc]
        unfold specLastCustomTitle at hct
        simp only [hct]
      rw [ht, hcsome]
      unfold resolveTitle
      simp [hws]
    · intro t hcn hdt
      have hcnone : s2.customTitle = none := by
        rw [hc]
        unfold specLastCustomTitle at hcn
        simp only [hcn]
        rfl
      have hft : s2.firstRequestText = t := by
        rw [hf]
        unfold specDerivedText at hdt
        simp only [hdt]
        rfl
      have htne : t ≠ [] := by
        unfold specDerivedText at hdt
        have hmem := mem_of_head? hdt
        have := List.of_mem_filter hmem
        simpa using this
      have htnee : t.isEmpty = false := by simpa using htne
      rw [ht, hcnone, hft]
      unfold resolveTitle
      simp only [htnee, Bool.not_false, if_true]
      rw [ellipsize_nonempty t htne]
      simp
    · intro hcn hdn
      have hcnone : s2.customTitle = none := by
        rw [hc]
        unfold specLastCustomTitle at hcn
        simp only [hcn]
        rfl
      have hft : s2.firstRequestText = [] := by
        rw [hf]
        unfold specDerivedText at hdn
        simp only [hdn]
        rfl
      rw [ht, hcnone, hft]
      decide

/-- Scenario D's splice line: raw text
`{"kind":2,"k":["requests"],"v":[{"message":{"parts":[{"text":"Fix bug"}]},"timestamp":5}]}` —
starts with the splice tag, is small, mentions both `"message"` and
`"parts"`, the timestamp regex matches `5`, the first-text regex would match
`Fix bug`, and it parses to the corresponding object. -/
def scenarioDSplice : JsonlLine :=
  { startsKind2 := true, big := false, hasMsgParts := true,
    tsMatches := [5], textMatch := some "Fix bug".data,
    parsed := some (Json.obj (.cons "kind".data (Json.num 2)
      (.cons "k".data (Json.arr (.cons (Json.str "requests".data) .nil))
      (.cons "v".data (Json.arr (.cons (Json.obj
        (.cons "message".data (Json.obj (.cons "parts".data
          (Json.arr (.cons (Json.obj (.cons "text".data
            (Json.str "Fix bug".data) .nil)) .nil)) .nil))
        (.cons "timestamp".data (Json.num 5) .nil))) .nil)) .nil)))) }

/-- Scenario D's later ScalarSet line:
`{"kind":1,"k":["customTitle"],"v":"Release notes"}`. -/
def scenarioDTitleSet : JsonlLine :=
  { startsKind2 := false, big := false, hasMsgParts := false,
    tsMatches := [], textMatch := none,
    parsed := some (Json.obj (.cons "kind".data (Json.num 1)
      (.cons "k".data (Json.arr (.cons (Json.str "customTitle".data) .nil))
      (.cons "v".data (Json.str "Release notes".data) .nil)))) }

def scenarioDSummary : SessionSummary :=
  { title := "Release notes".data, lastMessageDate := 5,
    initialLocation := Json.str "panel".data, isEmpty := false }

/-- C5 witness: Scenario D computed concretely — derived text `Fix bug`,
later customTitle `Release notes`; the resulting title is `Release notes`. -/
theorem C5_title_precedence_witness :
    parseJsonlSession [scenarioDSplice, scenarioDTitleSet] =
      some scenarioDSummary ∧
    scenarioDSummary.title = "Release notes".data :=
  ⟨by decide,
   (C5_title_precedence [scenarioDSplice, scenarioDTitleSet] scenarioDSummary
     (by decide)).1 "Release notes".data (by decide) (by decide)⟩

/-- The raw line `{"kind":2,"k":["requests"],"v":[]}` — an array splice that
appends zero items.  It starts with the splice tag, is small, mentions
neither `"message"` nor `"parts"`, matches no timestamp, and parses to the
corresponding object. -/
def emptySpliceLine : JsonlLine :=
  { startsKind2 := true, big := false, hasMsgParts := false, tsMatches := [],
    textMatch := none,
    parsed := some (Json.obj (.cons "kind".data (Json.num 2)
      (.cons "k".data (Json.arr (.cons (Json.str "requests".data) .nil))
      (.cons "v".data (Json.arr .nil) .nil)))) }

/-- C6 (corrected, counterexample): an incremental record consisting of one
array splice that appends zero items has zero request entries, yet the
extractor marks it non-empty (`isEmpty = false`) because the splice branch
fires on the raw `{"kind":2` prefix before ever counting items — refuting
the claimed "isEmpty iff zero request entries" equivalence. -/
theorem C6_isEmpty_counterexample :
    (parseJsonlSession [emptySpliceLine]).map SessionSummary.isEmpty =
      some false ∧
    specJsonlRequestCount [emptySpliceLine] = 0 := by decide

/-- C6 (corrected, amended claim): in the legacy snapshot format, `isEmpty`
is true iff the record has zero request entries, exactly as claimed.  In the
incremental format the equivalence must be weakened: `isEmpty` is false iff
the record contains a line starting with the splice tag (even one appending
zero items, or one whose keyPath is not `requests`) or a snapshot embedding
a non-empty `requests` list. -/
theorem C6_isEmpty_amended :
    (∀ (lines : List JsonlLine) (r : SessionSummary),
       parseJsonlSession lines = some r →
       (r.isEmpty = false ↔ ∃ l ∈ lines, specLineMarksNonempty l = true)) ∧
    (∀ (j : Json) (r : SessionSummary),
       parseLegacySnapshot j = some r →
       (r.isEmpty = true ↔ specLegacyRequestCount j = 0)) := by
  constructor
  · intro lines r h
    unfold parseJsonlSession at h
    cases hloop : parseJsonlLoop initParseState lines with
    | none =>
      simp only [hloop] at h
      exact Option.noConfusion h
    | some s2 =>
      simp only [hloop] at h
      obtain ⟨_, he⟩ := finalizeParse_fields s2 r h
      obtain ⟨_, _, hie⟩ := parseJsonlLoop_fields lines initParseState s2 hloop
      rw [he, hie]
      show (true && !lines.any specLineMarksNonempty) = false ↔ _
      rw [Bool.true_and]
      simp [List.any_eq_true]
  · intro j r h
    cases j with
    | obj sf =>
      unfold parseLegacySnapshot at h
      cases hrq : jLookup sf "requests".data with
      | none =>
        simp only [hrq, Option.some.injEq] at h
        subst h
        unfold specLegacyRequestCount
        simp [hrq]
      | some rv =>
        simp only [hrq] at h
        by_cases htr : jTruthy rv = true
        · rw [if_pos htr] at h
          cases rv with
          | arr reqs =>
            cases reqs with
            | nil => simp [jTruthy] at htr
            | cons a tl =>
              cases htp : textPartsOfReq a with
              | none => simp [htp] at h
              | some tp =>
                simp only [htp] at h
                cases hti : legacyTitleOf tp with
                | none => simp [hti] at h
                | some title =>
                  simp only [hti] at h
                  cases hlo : (JsonList.cons a tl).lastOpt with
                  | none => simp [hlo] at h
                  | some lj =>
                    simp only [hlo] at h
                    cases lj with
                    | obj lf =>
                      cases hts : jAsPyNum
                          (jGetD lf "timestamp".data (Json.num 0)) with
                      | none => simp [hts] at h
                      | some ts =>
                        simp only [hts, Option.some.injEq] at h
                        subst h
                        unfold specLegacyRequestCount
                        simp [hrq, JsonList.len]
                    | null => simp at h
                    | bool b => simp at h
                    | num n => simp at h
                    | str t2 => simp at h
                    | arr a2 => simp at h
          | null => simp [jTruthy] at htr
          | bool b => simp at h
          | num n => simp at h
          | str t2 => simp at h
          | obj f2 => simp at h
        · have htrf : jTruthy rv = false := by simpa using htr
          rw [if_neg htr] at h
          replace h := (Option.some.inj h).symm
          subst h
          unfold specLegacyRequestCount
          simp only [hrq]
          cases rv with
          | arr reqs =>
            cases reqs with
            | nil => simp [JsonList.len]
            | cons a tl => simp [jTruthy] at htrf
          | null => simp
          | bool b => simp
          | num n => simp
          | str t2 => simp
          | obj f2 => simp
    | null => simp [parseLegacySnapshot] at h
    | bool b => simp [parseLegacySnapshot] at h
    | num n => simp [parseLegacySnapshot] at h
    | str t2 => simp [parseLegacySnapshot] at h
    | arr a2 => simp [parseLegacySnapshot] at h

def emptySpliceSummary : SessionSummary :=
  { title := "Untitled Session".data, lastMessageDate := 0,
    initialLocation := Json.str "panel".data, isEmpty := false }

def legacyEmptySummary : SessionSummary :=
  { title := "Untitled Session".data, lastMessageDate := 0,
    initialLocation := Json.str "panel".data, isEmpty := true }

/-- C6 witness: the amended equivalences computed at concrete records — the
zero-item splice record is non-empty by the tagged-line rule, and a legacy
snapshot without requests is empty with a request count of zero. -/
theorem C6_isEmpty_amended_witness :
    emptySpliceSummary.isEmpty = false ∧
    specLegacyRequestCount (Json.obj .nil) = 0 :=
  ⟨(C6_isEmpty_amended.1 [emptySpliceLine] emptySpliceSummary (by decide)).mpr
      ⟨emptySpliceLine, by simp, by decide⟩,
   (C6_isEmpty_amended.2 (Json.obj .nil) legacyEmptySummary (by decide)).mp
      (by decide)⟩

/-! ### Reconciliation-engine lemmas (claims C2, C3) -/

theorem buildEntries_mono :
    ∀ (disk : List (List Nat × DiskRecord))
      (acc : List (List Nat × IndexEntry)) (sid : List Nat),
      hasKey acc sid = true →
      hasKey (disk.foldl repairFoldStep acc) sid = true := by
  intro disk
  induction disk with
  | nil => intro acc sid h; exact h
  | cons p rest ih =>
    intro acc sid h
    rw [List.foldl_cons]
    apply ih
    unfold repairFoldStep
    split
    · exact h
    · cases hre : repairExtract p.2 with
      | none => exact h
      | some parsed =>
        simp only [hasKey, List.any_append] at h ⊢
        simp [h]

theorem buildEntries_adds :
    ∀ (disk : List (List Nat × DiskRecord))
      (acc : List (List Nat × IndexEntry)),
      (∀ p ∈ disk, (repairExtract p.2).isSome = true) →
      ∀ p ∈ disk, hasKey (disk.foldl repairFoldStep acc) p.1 = true := by
  intro disk
  induction disk with
  | nil => intro acc _ p hp; simp at hp
  | cons q rest ih =>
    intro acc hall p hp
    rw [List.foldl_cons]
    rcases List.mem_cons.mp hp with heq | hmem
    · subst heq
      apply buildEntries_mono
      unfold repairFoldStep
      by_cases hk : hasKey acc p.1 = true
      · rw [if_pos hk]; exact hk
      · rw [if_neg hk]
        have hs := hall p (by simp)
        cases hre : repairExtract p.2 with
        | none => rw [hre] at hs; simp at hs
        | some parsed =>
          simp only [hasKey, List.any_append]
          simp
    · exact ih (repairFoldStep acc q) (fun x hx => hall x (by simp [hx])) p hmem

theorem buildEntries_subset_keys :
    ∀ (disk : List (List Nat × DiskRecord))
      (acc : List (List Nat × IndexEntry)) (sid : List Nat),
      hasKey (disk.foldl repairFoldStep acc) sid = true →
      hasKey acc sid = true ∨ ∃ p ∈ disk, p.1 = sid := by
  intro disk
  induction disk with
  | nil => intro acc sid h; exact Or.inl h
  | cons q rest ih =>
    intro acc sid h
    rw [List.foldl_cons] at h
    rcases ih _ sid h with hacc | hex
    · unfold repairFoldStep at hacc
      split at hacc
      · exact Or.inl hacc
      · split at hacc
        · simp only [hasKey, List.any_append, Bool.or_eq_true] at hacc
          rcases hacc with hl | hr
          · exact Or.inl hl
          · simp only [List.any_cons, List.any_nil, Bool.or_false] at hr
            exact Or.inr ⟨q, by simp, by simpa using hr⟩
        · exact Or.inl hacc
    · obtain ⟨p, hp, hpe⟩ := hex
      exact Or.inr ⟨p, by simp [hp], hpe⟩

/-- C2 (corrected, counterexample): a workspace whose only on-disk record is
a legacy `.json` file with malformed JSON text (its `json.load` raises, so
the rebuild loop reports and skips the id, source lines 658-661 and 707-708)
ends a default run with an index that does not contain that disk id — the
claimed unconditional superset `index ⊇ disk` fails. -/
theorem C2_superset_counterexample :
    hasKey (buildEntries false []
        [([97], { jsonFile := some none, jsonlFile := none })]) [97] = false ∧
    ([97] : List Nat) ∈
      ([([97], ({ jsonFile := some none, jsonlFile := none } : DiskRecord))].map
        Prod.fst) := by
  decide

/-- C2 (corrected, amended claim): after a default (`removeOrphans=false`)
run, every id previously in the index is preserved unconditionally, and the
index contains every on-disk id whose record parses successfully; disk ids
whose records fail to parse are skipped. -/
theorem C2_repair_superset_amended
    (existing : List (List Nat × IndexEntry))
    (disk : List (List Nat × DiskRecord)) :
    (∀ sid, hasKey existing sid = true →
       hasKey (buildEntries false existing disk) sid = true) ∧
    ((∀ p ∈ disk, (repairExtract p.2).isSome = true) →
       ∀ p ∈ disk, hasKey (buildEntries false existing disk) p.1 = true) := by
  constructor
  · intro sid h
    exact buildEntries_mono disk existing sid h
  · intro hparse p hp
    exact buildEntries_adds disk existing hparse p hp

/-- An on-disk record that parses trivially: a `.jsonl` file with no lines
(its extraction yields the sentinel summary). -/
def trivialRecord : DiskRecord := { jsonFile := none, jsonlFile := some [] }

def dummyEntry (sid : List Nat) : IndexEntry :=
  { sessionId := sid, title := "Untitled Session".data, lastMessageDate := 0,
    isImported := false, initialLocation := Json.str "panel".data,
    isEmpty := true }

def scenarioAIndex : List (List Nat × IndexEntry) := [([65], dummyEntry [65])]

def scenarioADisk : List (List Nat × DiskRecord) :=
  [([65], trivialRecord), ([66], trivialRecord), ([67], trivialRecord)]

/-- C2 witness: Scenario A — disk `{A,B,C}` (= `{[65],[66],[67]}`), index
`{A}`; after a default run all of A, B, C are indexed. -/
theorem C2_repair_superset_witness :
    hasKey (buildEntries false scenarioAIndex scenarioADisk) [65] = true ∧
    hasKey (buildEntries false scenarioAIndex scenarioADisk) [66] = true ∧
    hasKey (buildEntries false scenarioAIndex scenarioADisk) [67] = true :=
  ⟨(C2_repair_superset_amended scenarioAIndex scenarioADisk).1 [65] (by decide),
   (C2_repair_superset_amended scenarioAIndex scenarioADisk).2 (by decide)
     ([66], trivialRecord) (by decide),
   (C2_repair_superset_amended scenarioAIndex scenarioADisk).2 (by decide)
     ([67], trivialRecord) (by decide)⟩

/-- C3 (corrected, counterexample): with `removeOrphans=true` the rebuild
starts from an empty map, and a disk record whose legacy JSON is malformed is
skipped — the final index misses that disk id, refuting the claimed equality
`index == disk`. -/
theorem C3_equality_counterexample :
    hasKey (buildEntries true [([65], dummyEntry [65]), ([66], dummyEntry [66])]
        [([65], { jsonFile := some none, jsonlFile := none })]) [65] = false := by
  decide

/-- C3 (corrected, amended claim): after a `removeOrphans=true` run the index
ids are exactly the on-disk ids whose records parse successfully; when every
disk record parses this is exactly the disk id set, and index entries with no
corresponding file are always dropped. -/
theorem C3_removeOrphans_amended
    (existing : List (List Nat × IndexEntry))
    (disk : List (List Nat × DiskRecord))
    (hparse : ∀ p ∈ disk, (repairExtract p.2).isSome = true) :
    ∀ sid, hasKey (buildEntries true existing disk) sid = true ↔
      ∃ p ∈ disk, p.1 = sid := by
  intro sid
  constructor
  · intro h
    rcases buildEntries_subset_keys disk [] sid h with hacc | hex
    · simp [hasKey] at hacc
    · exact hex
  · rintro ⟨p, hp, hpe⟩
    subst hpe
    exact buildEntries_adds disk [] hparse p hp

def scenarioBIndex : List (List Nat × IndexEntry) :=
  [([65], dummyEntry [65]), ([66], dummyEntry [66])]

def scenarioBDisk : List (List Nat × DiskRecord) := [([65], trivialRecord)]

/-- C3 witness: Scenario B — index `{A,B}`, disk `{A}`; with
`removeOrphans=true` the final index ids are exactly `{A}`: A present, the
orphan B dropped. -/
theorem C3_removeOrphans_witness :
    hasKey (buildEntries true scenarioBIndex scenarioBDisk) [65] = true ∧
    hasKey (buildEntries true scenarioBIndex scenarioBDisk) [66] = false := by
  constructor
  · exact (C3_removeOrphans_amended scenarioBIndex scenarioBDisk (by decide)
      [65]).mpr ⟨([65], trivialRecord), by decide, rfl⟩
  · cases hv : hasKey (buildEntries true scenarioBIndex scenarioBDisk) [66] with
    | false => rfl
    | true =>
      exact absurd ((C3_removeOrphans_amended scenarioBIndex scenarioBDisk
        (by decide) [66]).mp hv) (by decide)

/-! ## Cache synchronizer (`_update_agent_sessions_cache`, source lines
465-598)

The two cache lists are lists of JSON objects (`JsonFields` values); the
embedding receives them already loaded (the `json.loads` of the two rows at
source lines 500-520; an absent or malformed row behaves as an empty list),
together with the `entries` map as a list of (id, entry) pairs in insertion
order. -/

/-- `item.get("resource", "")` restricted to items whose `resource` value,
when present, is a string; a non-string value would raise `TypeError` at the
`in` check in the source, so theorems about the synchronizer carry the
`itemResourceWF` hypothesis excluding that corner. -/
def itemResource (it : JsonFields) : List Char :=
  match jLookup it "resource".data with
  | some (.str s) => s
  | _ => []

/-- The `resource` field, if present, is a string. -/
def itemResourceWF (it : JsonFields) : Prop :=
  ∀ v, jLookup it "resource".data = some v → ∃ s, v = Json.str s

/-- `"vscode-chat-session://" in item.get("resource", "")` (source lines
527, 536, 544, 548). -/
def isChatItem (it : JsonFields) : Bool :=
  containsSub "vscode-chat-session://".data (itemResource it)

/-- Membership in `existing_model_resources` / `existing_state_resources`
(source lines 522-539): the resources of the existing chat-scheme items. -/
def resourceMem (r : List Char) (items : List JsonFields) : Bool :=
  items.any (fun it => isChatItem it && itemResource it = r)

/-- The model-cache entry built for a newly added session (source lines
563-574). -/
def mkModelCacheEntry (sid : List Nat) (e : IndexEntry) : JsonFields :=
  .cons "providerType".data (Json.str "local".data)
  (.cons "providerLabel".data (Json.str "Local".data)
  (.cons "resource".data (Json.str (sessionIdToResource sid))
  (.cons "icon".data (Json.str "vm".data)
  (.cons "label".data (Json.str e.title)
  (.cons "status".data (Json.num 1)
  (.cons "timing".data (Json.obj (.cons "created".data
    (Json.num e.lastMessageDate) .nil)) .nil))))))

/-- The state-cache entry built for a newly added session (source lines
578-584). -/
def mkStateCacheEntry (sid : List Nat) (e : IndexEntry) : JsonFields :=
  .cons "resource".data (Json.str (sessionIdToResource sid))
  (.cons "archived".data (Json.bool false)
  (.cons "read".data (Json.num e.lastMessageDate) .nil))

/-- One iteration of the `for session_id, entry_data in entries.items()`
loop (source lines 552-584): empty sessions are skipped; otherwise a model
and a state entry are appended for resources not already present in the
respective pre-computed resource sets. -/
def syncFoldStep (existingModel existingState : List JsonFields)
    (acc : List JsonFields × List JsonFields)
    (p : List Nat × IndexEntry) : List JsonFields × List JsonFields :=
  if p.2.isEmpty then acc
  else
    (if resourceMem (sessionIdToResource p.1) existingModel then acc.1
     else acc.1 ++ [mkModelCacheEntry p.1 p.2],
     if resourceMem (sessionIdToResource p.1) existingState then acc.2
     else acc.2 ++ [mkStateCacheEntry p.1 p.2])

/-- `_update_agent_sessions_cache` (source lines 465-598): split each list
into non-chat and chat items, keep all chat items, append entries for new
non-empty sessions, and emit non-chat items followed by chat items. -/
def updateAgentSessionsCache (existingModel existingState : List JsonFields)
    (entries : List (List Nat × IndexEntry)) :
    List JsonFields × List JsonFields :=
  ((existingModel.filter (fun it => !isChatItem it)) ++
     (entries.foldl (syncFoldStep existingModel existingState)
       (existingModel.filter (fun it => isChatItem it),
        existingState.filter (fun it => isChatItem it))).1,
   (existingState.filter (fun it => !isChatItem it)) ++
     (entries.foldl (syncFoldStep existingModel existingState)
       (existingModel.filter (fun it => isChatItem it),
        existingState.filter (fun it => isChatItem it))).2)

/-! ### Synchronizer lemmas -/

theorem itemResource_mkModel (sid : List Nat) (e : IndexEntry) :
    itemResource (mkModelCacheEntry sid e) = sessionIdToResource sid := by
  rfl

theorem itemResource_mkState (sid : List Nat) (e : IndexEntry) :
    itemResource (mkStateCacheEntry sid e) = sessionIdToResource sid := by
  rfl

theorem isChatItem_mkModel (sid : List Nat) (e : IndexEntry) :
    isChatItem (mkModelCacheEntry sid e) = true := by
  unfold isChatItem
  rw [itemResource_mkModel]
  unfold sessionIdToResource
  rw [show "vscode-chat-session://local/".data =
      "vscode-chat-session://".data ++ "local/".data by rfl]
  rw [List.append_assoc]
  exact containsSub_of_prefix _ _ (isPrefixOf_append_self _ _)

theorem isChatItem_mkState (sid : List Nat) (e : IndexEntry) :
    isChatItem (mkStateCacheEntry sid e) = true := by
  unfold isChatItem
  rw [itemResource_mkState]
  unfold sessionIdToResource
  rw [show "vscode-chat-session://local/".data =
      "vscode-chat-session://".data ++ "local/".data by rfl]
  rw [List.append_assoc]
  exact containsSub_of_prefix _ _ (isPrefixOf_append_self _ _)

/-- Everything in the fold result comes from the accumulator or is a
constructed entry for some non-empty session of `entries` (model side). -/
theorem syncFold_mem_model (eM eS : List JsonFields) :
    ∀ (entries : List (List Nat × IndexEntry))
      (acc : List JsonFields × List JsonFields) (it : JsonFields),
      it ∈ (entries.foldl (syncFoldStep eM eS) acc).1 →
      it ∈ acc.1 ∨ ∃ p ∈ entries, p.2.isEmpty = false ∧
        it = mkModelCacheEntry p.1 p.2 := by
  intro entries
  induction entries with
  | nil => intro acc it h; exact Or.inl h
  | cons q rest ih =>
    intro acc it h
    rw [List.foldl_cons] at h
    rcases ih _ it h with hacc | hex
    · unfold syncFoldStep at hacc
      split at hacc
      · exact Or.inl hacc
      · simp only at hacc
        split at hacc
        · exact Or.inl hacc
        · rcases List.mem_append.mp hacc with hl | hr
          · exact Or.inl hl
          · simp only [List.mem_singleton] at hr
            refine Or.inr ⟨q, by simp, ?_, hr⟩
            simpa using (by assumption : ¬q.2.isEmpty = true)
    · obtain ⟨p, hp, hne, heq⟩ := hex
      exact Or.inr ⟨p, by simp [hp], hne, heq⟩

/-- Everything in the fold result comes from the accumulator or is a
constructed entry for some non-empty session of `entries` (state side). -/
theorem syncFold_mem_state (eM eS : List JsonFields) :
    ∀ (entries : List (List Nat × IndexEntry))
      (acc : List JsonFields × List JsonFields) (it : JsonFields),
      it ∈ (entries.foldl (syncFoldStep eM eS) acc).2 →
      it ∈ acc.2 ∨ ∃ p ∈ entries, p.2.isEmpty = false ∧
        it = mkStateCacheEntry p.1 p.2 := by
  intro entries
  induction entries with
  | nil => intro acc it h; exact Or.inl h
  | cons q rest ih =>
    intro acc it h
    rw [List.foldl_cons] at h
    rcases ih _ it h with hacc | hex
    · unfold syncFoldStep at hacc
      split at hacc
      · exact Or.inl hacc
      · simp only at hacc
        split at hacc
        · exact Or.inl hacc
        · rcases List.mem_append.mp hacc with hl | hr
          · exact Or.inl hl
          · simp only [List.mem_singleton] at hr
            refine Or.inr ⟨q, by simp, ?_, hr⟩
            simpa using (by assumption : ¬q.2.isEmpty = true)
    · obtain ⟨p, hp, hne, heq⟩ := hex
      exact Or.inr ⟨p, by simp [hp], hne, heq⟩

def emptyIndexEntry (sid : List Nat) : IndexEntry :=
  { sessionId := sid, title := "Untitled Session".data, lastMessageDate := 0,
    isImported := false, initialLocation := Json.str "panel".data,
    isEmpty := true }

/-- C4 (corrected, counterexample): when the resource of an `isEmpty=true`
session is already present in the model cache before synchronization, the
synchronizer keeps it (the `kept` filter at source lines 542-545 retains
every chat-scheme item), so that resource still appears in the model list
after synchronization — refuting "appears in neither cache list". -/
theorem C4_empty_sessions_counterexample :
    (((updateAgentSessionsCache
        [JsonFields.cons "resource".data
          (Json.str (sessionIdToResource [69])) .nil] []
        [([69], emptyIndexEntry [69])]).1).any
      (fun it => itemResource it = sessionIdToResource [69]) = true) ∧
    (emptyIndexEntry [69]).isEmpty = true := by decide

/-- C4 (corrected, amended claim): synchronization never ADDS a resource for
an `isEmpty=true` session: if the resource of a session id whose index
entries are all empty is absent from both cache lists before the run, it is
absent from both lists after the run.  (Pre-existing entries — even for
empty sessions — are preserved, which is what the counterexample exhibits.) -/
theorem C4_empty_sessions_never_added
    (existingModel existingState : List JsonFields)
    (entries : List (List Nat × IndexEntry)) (sid : List Nat)
    (hwfM : ∀ it ∈ existingModel, itemResourceWF it)
    (hwfS : ∀ it ∈ existingState, itemResourceWF it)
    (hsid : ∀ b ∈ sid, b < 256)
    (hids : ∀ p ∈ entries, ∀ b ∈ p.1, b < 256)
    (hempty : ∀ p ∈ entries, p.1 = sid → p.2.isEmpty = true)
    (habsM : ∀ it ∈ existingModel, itemResource it ≠ sessionIdToResource sid)
    (habsS : ∀ it ∈ existingState, itemResource it ≠ sessionIdToResource sid) :
    (∀ it ∈ (updateAgentSessionsCache existingModel existingState entries).1,
       itemResource it ≠ sessionIdToResource sid) ∧
    (∀ it ∈ (updateAgentSessionsCache existingModel existingState entries).2,
       itemResource it ≠ sessionIdToResource sid) := by
  constructor
  · intro it hmem
    unfold updateAgentSessionsCache at hmem
    rcases List.mem_append.mp hmem with hnc | hfold
    · exact habsM it (List.mem_of_mem_filter hnc)
    · rcases syncFold_mem_model existingModel existingState entries _ it hfold
        with hkept | hadd
      · exact habsM it (List.mem_of_mem_filter hkept)
      · obtain ⟨p, hp, hne, heq⟩ := hadd
        rw [heq, itemResource_mkModel]
        intro hres
        have hpid : p.1 = sid :=
          sessionIdToResource_inj (hids p hp) hsid hres
        have := hempty p hp hpid
        rw [this] at hne
        exact Bool.noConfusion hne
  · intro it hmem
    unfold updateAgentSessionsCache at hmem
    rcases List.mem_append.mp hmem with hnc | hfold
    · exact habsS it (List.mem_of_mem_filter hnc)
    · rcases syncFold_mem_state existingModel existingState entries _ it hfold
        with hkept | hadd
      · exact habsS it (List.mem_of_mem_filter hkept)
      · obtain ⟨p, hp, hne, heq⟩ := hadd
        rw [heq, itemResource_mkState]
        intro hres
        have hpid : p.1 = sid :=
          sessionIdToResource_inj (hids p hp) hsid hres
        have := hempty p hp hpid
        rw [this] at hne
        exact Bool.noConfusion hne

/-- C4 witness: with empty caches and a single empty session, its resource
appears in neither output list. -/
theorem C4_empty_sessions_witness :
    ((updateAgentSessionsCache [] [] [([69], emptyIndexEntry [69])]).1).any
      (fun it => itemResource it = sessionIdToResource [69]) = false := by
  have h := (C4_empty_sessions_never_added [] [] [([69], emptyIndexEntry [69])]
    [69] (by simp) (by simp) (by decide) (by decide) (by decide)
    (by simp) (by simp)).1
  cases hv : ((updateAgentSessionsCache [] [] [([69], emptyIndexEntry [69])]).1).any
      (fun it => itemResource it = sessionIdToResource [69]) with
  | false => rfl
  | true =>
    obtain ⟨it, hmem, heq⟩ := List.any_eq_true.mp hv
    exact absurd (by simpa using heq) (h it hmem)

theorem count_filter_of_pos {α : Type} [DecidableEq α] (p : α → Bool) (a : α)
    (ha : p a = true) : ∀ l : List α, (l.filter p).count a = l.count a := by
  intro l
  induction l with
  | nil => rfl
  | cons x xs ih =>
    by_cases hx : p x = true
    · rw [List.filter_cons_of_pos hx]
      rw [List.count_cons, List.count_cons, ih]
    · rw [List.filter_cons_of_neg (by simpa using hx)]
      have hax : ¬a = x := fun he => hx (he ▸ ha)
      rw [List.count_cons, ih]
      simp
      intro he
      exact absurd he.symm hax

theorem count_eq_zero_of_pred_false {α : Type} [DecidableEq α] (p : α → Bool)
    (a : α) (ha : p a = false) (l : List α) : (l.filter p).count a = 0 := by
  rw [List.count_eq_zero]
  intro hmem
  have := List.of_mem_filter hmem
  rw [ha] at this
  exact Bool.noConfusion this

/-- The add-loop never changes the count of a non-chat item (model side). -/
theorem syncFold_count_model (eM eS : List JsonFields) (f : JsonFields)
    (hf : isChatItem f = false) :
    ∀ (entries : List (List Nat × IndexEntry))
      (acc : List JsonFields × List JsonFields),
      (entries.foldl (syncFoldStep eM eS) acc).1.count f = acc.1.count f := by
  intro entries
  induction entries with
  | nil => intro acc; rfl
  | cons q rest ih =>
    intro acc
    rw [List.foldl_cons, ih]
    unfold syncFoldStep
    split
    · rfl
    · simp only
      split
      · rfl
      · rw [List.count_append]
        have hne : f ≠ mkModelCacheEntry q.1 q.2 := by
          intro he
          rw [he, isChatItem_mkModel] at hf
          exact Bool.noConfusion hf
        have hzero : List.count f [mkModelCacheEntry q.1 q.2] = 0 := by
          rw [List.count_eq_zero]
          simpa using hne
        rw [hzero]
        omega

/-- The add-loop never changes the count of a non-chat item (state side). -/
theorem syncFold_count_state (eM eS : List JsonFields) (f : JsonFields)
    (hf : isChatItem f = false) :
    ∀ (entries : List (List Nat × IndexEntry))
      (acc : List JsonFields × List JsonFields),
      (entries.foldl (syncFoldStep eM eS) acc).2.count f = acc.2.count f := by
  intro entries
  induction entries with
  | nil => intro acc; rfl
  | cons q rest ih =>
    intro acc
    rw [List.foldl_cons, ih]
    unfold syncFoldStep
    split
    · rfl
    · simp only
      split
      · rfl
      · rw [List.count_append]
        have hne : f ≠ mkStateCacheEntry q.1 q.2 := by
          intro he
          rw [he, isChatItem_mkState] at hf
          exact Bool.noConfusion hf
        have hzero : List.count f [mkStateCacheEntry q.1 q.2] = 0 := by
          rw [List.count_eq_zero]
          simpa using hne
        rw [hzero]
        omega

/-- C7 (confirmed): synchronization passes foreign entries — items whose
resource does not contain the local `vscode-chat-session://` scheme —
through unmodified: each such item occurs in the output list exactly as
often as in the input list (so an entry present once before is present
exactly once after, and none is dropped or duplicated).  The
well-formedness hypotheses restrict to caches on which the source runs to
completion (a non-string `resource` value raises mid-run). -/
theorem C7_foreign_passthrough
    (existingModel existingState : List JsonFields)
    (entries : List (List Nat × IndexEntry)) (f : JsonFields)
    (hwfM : ∀ it ∈ existingModel, itemResourceWF it)
    (hwfS : ∀ it ∈ existingState, itemResourceWF it)
    (hforeign : isChatItem f = false) :
    (updateAgentSessionsCache existingModel existingState entries).1.count f =
      existingModel.count f ∧
    (updateAgentSessionsCache existingModel existingState entries).2.count f =
      existingState.count f := by
  constructor
  · unfold updateAgentSessionsCache
    rw [List.count_append]
    rw [syncFold_count_model existingModel existingState f hforeign]
    rw [count_filter_of_pos _ f (by simp [hforeign])]
    rw [count_eq_zero_of_pred_false _ f hforeign]
    omega
  · unfold updateAgentSessionsCache
    rw [List.count_append]
    rw [syncFold_count_state existingModel existingState f hforeign]
    rw [count_filter_of_pos _ f (by simp [hforeign])]
    rw [count_eq_zero_of_pred_false _ f hforeign]
    omega

/-- A foreign cache item (a `codex`-style producer's entry). -/
def foreignItem : JsonFields :=
  .cons "resource".data (Json.str "codex://session/1".data)
  (.cons "label".data (Json.str "Codex".data) .nil)

/-- C7 witness: a concrete foreign entry present once in each input list is
present exactly once in each output list after a synchronization that also
adds a new session. -/
theorem C7_foreign_passthrough_witness :
    (updateAgentSessionsCache [foreignItem] [foreignItem]
      [([65], dummyEntry [65])]).1.count foreignItem = 1 ∧
    (updateAgentSessionsCache [foreignItem] [foreignItem]
      [([65], dummyEntry [65])]).2.count foreignItem = 1 := by
  have h := C7_foreign_passthrough [foreignItem] [foreignItem]
    [([65], dummyEntry [65])] foreignItem
    (by
      intro it hm
      simp only [List.mem_singleton] at hm
      subst hm
      intro v hv
      refine ⟨"codex://session/1".data, ?_⟩
      have hl : jLookup foreignItem "resource".data =
          some (Json.str "codex://session/1".data) := by decide
      rw [hl] at hv
      exact (Option.some.inj hv).symm)
    (by
      intro it hm
      simp only [List.mem_singleton] at hm
      subst hm
      intro v hv
      refine ⟨"codex://session/1".data, ?_⟩
      have hl : jLookup foreignItem "resource".data =
          some (Json.str "codex://session/1".data) := by decide
      rw [hl] at hv
      exact (Option.some.inj hv).symm)
    (by decide)
  refine ⟨?_, ?_⟩
  · rw [h.1]; decide
  · rw [h.2]; decide

/-! ## Duplicate namespace merger (`_merge_one_workspace`, source lines
1264-1379) -/

/-- The per-id extraction of `_merge_one_workspace` (source lines
1322-1354): unlike `repairExtract`, the legacy `.json` file is checked
first (`if json_file.exists(): ... elif jsonl_file.exists(): ...`), and the
incremental `.jsonl` file is only the fallback. -/
def mergeExtract (de : DiskRecord) : Option SessionSummary :=
  match de.jsonFile with
  | some (some j) => parseLegacySnapshot j
  | some none => none
  | none =>
    match de.jsonlFile with
    | some lines => parseJsonlSession lines
    | none => none

/-- An incremental-log line whose first request's text is `from-jsonl`. -/
def fromJsonlLine : JsonlLine :=
  { startsKind2 := true, big := false, hasMsgParts := true, tsMatches := [2],
    textMatch := some "from-jsonl".data,
    parsed := some (Json.obj (.cons "kind".data (Json.num 2)
      (.cons "k".data (Json.arr (.cons (Json.str "requests".data) .nil))
      (.cons "v".data (Json.arr (.cons (Json.obj
        (.cons "message".data (Json.obj (.cons "parts".data
          (Json.arr (.cons (Json.obj (.cons "text".data
            (Json.str "from-jsonl".data) .nil)) .nil)) .nil))
        (.cons "timestamp".data (Json.num 2) .nil))) .nil)) .nil)))) }

/-- A record for which the two formats disagree: the legacy snapshot titles
the session `from-json`, the incremental log titles it `from-jsonl`. -/
def bothFormatsRecord : DiskRecord :=
  { jsonFile := some (some (Json.obj (.cons "requests".data
      (Json.arr (.cons (Json.obj
        (.cons "message".data (Json.obj (.cons "parts".data
          (Json.arr (.cons (Json.obj (.cons "text".data
            (Json.str "from-json".data) .nil)) .nil)) .nil))
        (.cons "timestamp".data (Json.num 1) .nil))) .nil)) .nil))),
    jsonlFile := some [fromJsonlLine] }

/-- C9 (code bug): when both record files exist for the same session id, the
repair path prefers the incremental `.jsonl` file (source lines 646-658, as
the spec demands), but the merge path checks the legacy `.json` file first
(source lines 1328 and 1353), so merge-path metadata comes from the legacy
snapshot — the two extraction paths disagree on the same on-disk record. -/
theorem C9_format_preference_bug :
    (repairExtract bothFormatsRecord).map SessionSummary.title =
      some "from-jsonl".data ∧
    (mergeExtract bothFormatsRecord).map SessionSummary.title =
      some "from-json".data := by decide

structure MergeFolder where
  disk : List (List Nat × DiskRecord)
  mtime : Int
  deriving DecidableEq, Repr

def lookupDisk : List (List Nat × DiskRecord) → List Nat → Option DiskRecord
  | [], _ => none
  | p :: rest, sid => if p.1 = sid then some p.2 else lookupDisk rest sid

def diskHasId (disk : List (List Nat × DiskRecord)) (sid : List Nat) : Bool :=
  disk.any (fun p => p.1 = sid)

/-- `dst.exists()` at planning time (source line 1290): whether the active
record directory already holds `<sid>.json` (`isJson = true`) or
`<sid>.jsonl`. -/
def dstExists (activeDisk : List (List Nat × DiskRecord)) (sid : List Nat)
    (isJson : Bool) : Bool :=
  match lookupDisk activeDisk sid with
  | some de => if isJson then de.jsonFile.isSome else de.jsonlFile.isSome
  | none => false

/-- The copies planned from one stale folder (source lines 1283-1291): every
id missing from the active folder contributes its existing file(s) whose
destination does not exist.  (The source iterates the missing ids in sorted
order; the embedding iterates them in list order, which changes neither the
final directory content nor any id set, since overwrites can only arise
between two stale folders.) -/
def copiesOfOld (activeDisk : List (List Nat × DiskRecord)) :
    List (List Nat × DiskRecord) → List (List Nat × Bool × DiskRecord)
  | [] => []
  | p :: rest =>
    (if diskHasId activeDisk p.1 then []
     else
       (if p.2.jsonFile.isSome && !dstExists activeDisk p.1 true
        then [(p.1, true, p.2)] else []) ++
       (if p.2.jsonlFile.isSome && !dstExists activeDisk p.1 false
        then [(p.1, false, p.2)] else [])) ++
    copiesOfOld activeDisk rest

/-- The full copy plan `files_to_copy` (source lines 1281-1291). -/
def mergePlan (activeDisk : List (List Nat × DiskRecord))
    (olds : List MergeFolder) : List (List Nat × Bool × DiskRecord) :=
  olds.foldl (fun acc old => acc ++ copiesOfOld activeDisk old.disk) []

def updateExt (de : DiskRecord) (isJson : Bool) (src : DiskRecord) :
    DiskRecord :=
  if isJson then { de with jsonFile := src.jsonFile }
  else { de with jsonlFile := src.jsonlFile }

def blankWithExt (isJson : Bool) (src : DiskRecord) : DiskRecord :=
  if isJson then { jsonFile := src.jsonFile, jsonlFile := none }
  else { jsonFile := none, jsonlFile := src.jsonlFile }

/-- `shutil.copy2(src, dst)` for one planned copy (source lines 1300-1305):
writes the named file into the active record directory, overwriting any
content a previous copy put there. -/
def applyCopy (disk : List (List Nat × DiskRecord))
    (c : List Nat × Bool × DiskRecord) : List (List Nat × DiskRecord) :=
  match lookupDisk disk c.1 with
  | some _ =>
    disk.map (fun p => if p.1 = c.1 then (p.1, updateExt p.2 c.2.1 c.2.2) else p)
  | none => disk ++ [(c.1, blankWithExt c.2.1 c.2.2)]

def newActiveDisk (active : MergeFolder) (olds : List MergeFolder) :
    List (List Nat × DiskRecord) :=
  (mergePlan active.disk olds).foldl applyCopy active.disk

def mergeExtractAt (disk : List (List Nat × DiskRecord)) (sid : List Nat) :
    Option SessionSummary :=
  match lookupDisk disk sid with
  | some de => mergeExtract de
  | none => none

/-- One iteration of the index update loop (source lines 1322-1364): ids not
yet indexed are extracted from the post-copy active directory (legacy format
first!) and, when extraction succeeds, appended to the entries map and to
`added_entries`. -/
def mergeIndexFold (nd : List (List Nat × DiskRecord))
    (acc : List (List Nat × IndexEntry) × List (List Nat))
    (sid : List Nat) : List (List Nat × IndexEntry) × List (List Nat) :=
  if hasKey acc.1 sid then acc
  else
    match mergeExtractAt nd sid with
    | some p => (acc.1 ++ [(sid, mkIndexEntry sid p)], acc.2 ++ [sid])
    | none => acc

structure MergeResult where
  disk : List (List Nat × DiskRecord)
  entries : List (List Nat × IndexEntry)
  added : List (List Nat)

/-- `_merge_one_workspace` for one group (source lines 1264-1379), given the
active (most recently modified) folder, the stale folders, and the active
store's parsed index entries (an absent or malformed index row behaves as an
empty map, line 1318).  Copies the planned files and updates the index; the
`added` ids are the `added_entries` fed to the cache synchronizer. -/
def mergeOneWorkspace (active : MergeFolder) (olds : List MergeFolder)
    (entries : List (List Nat × IndexEntry)) : MergeResult :=
  { disk := newActiveDisk active olds,
    entries := (((mergePlan active.disk olds).map (fun c => c.1)).foldl
      (mergeIndexFold (newActiveDisk active olds)) (entries, [])).1,
    added := (((mergePlan active.disk olds).map (fun c => c.1)).foldl
      (mergeIndexFold (newActiveDisk active olds)) (entries, [])).2 }

def insertByMtime (f : MergeFolder) : List MergeFolder → List MergeFolder
  | [] => [f]
  | g :: rest =>
    if f.mtime > g.mtime then f :: g :: rest else g :: insertByMtime f rest

/-- `folders.sort(key=lambda x: x["mtime"], reverse=True)` (source line
1266): a stable descending sort, like Python's. -/
def sortByMtimeDesc : List MergeFolder → List MergeFolder
  | [] => []
  | f :: rest => insertByMtime f (sortByMtimeDesc rest)

/-- `_merge_one_workspace` on a whole duplicate group: the active folder is
the head of the mtime-descending sort, the rest are stale. -/
def mergeGroup (folders : List MergeFolder)
    (entries : List (List Nat × IndexEntry)) : Option MergeResult :=
  match sortByMtimeDesc folders with
  | [] => none
  | a :: olds => some (mergeOneWorkspace a olds entries)

/-! ### Merger lemmas (claim C8) -/

theorem diskHasId_iff_lookup (d : List (List Nat × DiskRecord))
    (sid : List Nat) :
    diskHasId d sid = true ↔ (lookupDisk d sid).isSome = true := by
  induction d with
  | nil => simp [diskHasId, lookupDisk]
  | cons p rest ih =>
    simp only [diskHasId, List.any_cons, lookupDisk] at *
    by_cases hp : p.1 = sid
    · simp [hp]
    · simp [hp, ih]

theorem dstExists_of_not_hasId (d : List (List Nat × DiskRecord))
    (sid : List Nat) (b : Bool) (h : diskHasId d sid = false) :
    dstExists d sid b = false := by
  unfold dstExists
  cases hl : lookupDisk d sid with
  | none => rfl
  | some de =>
    exfalso
    have := (diskHasId_iff_lookup d sid).mpr (by rw [hl]; rfl)
    rw [h] at this
    exact Bool.noConfusion this

theorem copiesOfOld_spec (aD : List (List Nat × DiskRecord)) :
    ∀ (oldD : List (List Nat × DiskRecord)) (c : List Nat × Bool × DiskRecord),
      c ∈ copiesOfOld aD oldD →
      diskHasId oldD c.1 = true ∧ diskHasId aD c.1 = false := by
  intro oldD
  induction oldD with
  | nil => intro c hc; exact absurd hc (List.not_mem_nil c)
  | cons p rest ih =>
    intro c hc
    unfold copiesOfOld at hc
    rcases List.mem_append.mp hc with h1 | h2
    · by_cases hact : diskHasId aD p.1 = true
      · rw [if_pos hact] at h1
        exact absurd h1 (List.not_mem_nil c)
      · rw [if_neg hact] at h1
        have hc1 : c.1 = p.1 := by
          rcases List.mem_append.mp h1 with ha | hb
          · split at ha
            · rw [List.mem_singleton.mp ha]
            · exact absurd ha (List.not_mem_nil c)
          · split at hb
            · rw [List.mem_singleton.mp hb]
            · exact absurd hb (List.not_mem_nil c)
        constructor
        · simp [diskHasId, List.any_cons, hc1]
        · rw [hc1]
          cases h : diskHasId aD p.1
          · rfl
          · exact absurd h hact
    · obtain ⟨h1, h2⟩ := ih c h2
      refine ⟨?_, h2⟩
      simp only [diskHasId, List.any_cons, Bool.or_eq_true] at h1 ⊢
      exact Or.inr h1

theorem copiesOfOld_complete (aD : List (List Nat × DiskRecord)) :
    ∀ (oldD : List (List Nat × DiskRecord)) (sid : List Nat),
      (∀ p ∈ oldD, p.2.jsonFile.isSome = true ∨ p.2.jsonlFile.isSome = true) →
      diskHasId oldD sid = true → diskHasId aD sid = false →
      ∃ c ∈ copiesOfOld aD oldD, c.1 = sid := by
  intro oldD
  induction oldD with
  | nil =>
    intro sid _ h _
    exact absurd h (by simp [diskHasId])
  | cons p rest ih =>
    intro sid hwf hid hact
    by_cases hp : p.1 = sid
    · have hact' : diskHasId aD p.1 = false := by rw [hp]; exact hact
      have hne : ¬(diskHasId aD p.1 = true) := by
        rw [hact']; exact Bool.noConfusion
      have hdj : dstExists aD p.1 true = false :=
        dstExists_of_not_hasId aD p.1 true hact'
      have hdl : dstExists aD p.1 false = false :=
        dstExists_of_not_hasId aD p.1 false hact'
      rcases hwf p (List.mem_cons_self p rest) with hj | hl
      · refine ⟨(p.1, true, p.2), ?_, hp⟩
        unfold copiesOfOld
        refine List.mem_append.mpr (Or.inl ?_)
        rw [if_neg hne]
        refine List.mem_append.mpr (Or.inl ?_)
        rw [if_pos (by rw [hj, hdj]; rfl)]
        exact List.mem_singleton.mpr rfl
      · refine ⟨(p.1, false, p.2), ?_, hp⟩
        unfold copiesOfOld
        refine List.mem_append.mpr (Or.inl ?_)
        rw [if_neg hne]
        refine List.mem_append.mpr (Or.inr ?_)
        rw [if_pos (by rw [hl, hdl]; rfl)]
        exact List.mem_singleton.mpr rfl
    · have hid' : diskHasId rest sid = true := by
        simp only [diskHasId, List.any_cons, Bool.or_eq_true,
          decide_eq_true_eq] at hid ⊢
        rcases hid with h | h
        · exact absurd h hp
        · exact h
      obtain ⟨c, hc, hc1⟩ :=
        ih sid (fun q hq => hwf q (List.mem_cons_of_mem p hq)) hid' hact
      refine ⟨c, ?_, hc1⟩
      unfold copiesOfOld
      exact List.mem_append.mpr (Or.inr hc)

theorem mem_foldl_copies (aD : List (List Nat × DiskRecord)) (sid : List Nat) :
    ∀ (olds : List MergeFolder) (init : List (List Nat × Bool × DiskRecord)),
      (∃ c ∈ olds.foldl
          (fun acc old => acc ++ copiesOfOld aD old.disk) init, c.1 = sid) ↔
        ((∃ c ∈ init, c.1 = sid) ∨
         ∃ old ∈ olds, ∃ c ∈ copiesOfOld aD old.disk, c.1 = sid) := by
  intro olds
  induction olds with
  | nil =>
    intro init
    constructor
    · exact Or.inl
    · rintro (h | ⟨old, ho, _⟩)
      · exact h
      · exact absurd ho (List.not_mem_nil old)
  | cons o rest ih =>
    intro init
    rw [List.foldl_cons, ih]
    constructor
    · rintro (⟨c, hc, hc1⟩ | ⟨old, ho, c, hc, hc1⟩)
      · rcases List.mem_append.mp hc with h1 | h2
        · exact Or.inl ⟨c, h1, hc1⟩
        · exact Or.inr ⟨o, List.mem_cons_self o rest, c, h2, hc1⟩
      · exact Or.inr ⟨old, List.mem_cons_of_mem o ho, c, hc, hc1⟩
    · rintro (⟨c, hc, hc1⟩ | ⟨old, ho, c, hc, hc1⟩)
      · exact Or.inl ⟨c, List.mem_append.mpr (Or.inl hc), hc1⟩
      · rcases List.mem_cons.mp ho with rfl | ho'
        · exact Or.inl ⟨c, List.mem_append.mpr (Or.inr hc), hc1⟩
        · exact Or.inr ⟨old, ho', c, hc, hc1⟩

theorem mergePlan_mem_iff (aD : List (List Nat × DiskRecord))
    (olds : List MergeFolder) (sid : List Nat)
    (hwf : ∀ old ∈ olds, ∀ p ∈ old.disk,
      p.2.jsonFile.isSome = true ∨ p.2.jsonlFile.isSome = true) :
    (∃ c ∈ mergePlan aD olds, c.1 = sid) ↔
      ((∃ old ∈ olds, diskHasId old.disk sid = true) ∧
       diskHasId aD sid = false) := by
  unfold mergePlan
  rw [mem_foldl_copies]
  constructor
  · rintro (⟨c, hc, _⟩ | ⟨old, ho, c, hc, hc1⟩)
    · exact absurd hc (List.not_mem_nil c)
    · obtain ⟨h1, h2⟩ := copiesOfOld_spec aD old.disk c hc
      rw [hc1] at h1 h2
      exact ⟨⟨old, ho, h1⟩, h2⟩
  · rintro ⟨⟨old, ho, hid⟩, hact⟩
    obtain ⟨c, hc, hc1⟩ :=
      copiesOfOld_complete aD old.disk sid (hwf old ho) hid hact
    exact Or.inr ⟨old, ho, c, hc, hc1⟩

theorem mergePlan_not_active (aD : List (List Nat × DiskRecord))
    (olds : List MergeFolder) :
    ∀ c ∈ mergePlan aD olds, diskHasId aD c.1 = false := by
  intro c hc
  have hex : ∃ c2 ∈ mergePlan aD olds, c2.1 = c.1 := ⟨c, hc, rfl⟩
  unfold mergePlan at hex
  rw [mem_foldl_copies] at hex
  rcases hex with ⟨c2, hc2, _⟩ | ⟨old, _, c2, hc2, h1⟩
  · exact absurd hc2 (List.not_mem_nil c2)
  · have h := (copiesOfOld_spec aD old.disk c2 hc2).2
    rw [h1] at h
    exact h


theorem diskHasId_map_update (d : List (List Nat × DiskRecord))
    (k : List Nat) (b : Bool) (src : DiskRecord) (sid : List Nat) :
    diskHasId (d.map (fun p =>
        if p.1 = k then (p.1, updateExt p.2 b src) else p)) sid
      = diskHasId d sid := by
  induction d with
  | nil => rfl
  | cons p rest ih =>
    simp only [List.map_cons, diskHasId, List.any_cons] at *
    by_cases hp : p.1 = k
    · rw [if_pos hp]
      rw [ih]
    · rw [if_neg hp]
      rw [ih]

theorem diskHasId_applyCopy (d : List (List Nat × DiskRecord))
    (c : List Nat × Bool × DiskRecord) (sid : List Nat) :
    diskHasId (applyCopy d c) sid = true ↔
      (diskHasId d sid = true ∨ c.1 = sid) := by
  unfold applyCopy
  cases hl : lookupDisk d c.1 with
  | some de =>
    show diskHasId (d.map (fun p =>
        if p.1 = c.1 then (p.1, updateExt p.2 c.2.1 c.2.2) else p)) sid
          = true ↔ _
    rw [diskHasId_map_update]
    constructor
    · exact Or.inl
    · rintro (h | rfl)
      · exact h
      · exact (diskHasId_iff_lookup d c.1).mpr (by rw [hl]; rfl)
  | none =>
    show diskHasId (d ++ [(c.1, blankWithExt c.2.1 c.2.2)]) sid = true ↔ _
    simp only [diskHasId, List.any_append, List.any_cons, List.any_nil,
      Bool.or_false, Bool.or_eq_true, decide_eq_true_eq]

theorem lookupDisk_map_update_ne (d : List (List Nat × DiskRecord))
    (k : List Nat) (b : Bool) (src : DiskRecord) (sid : List Nat)
    (hne : k ≠ sid) :
    lookupDisk (d.map (fun p =>
        if p.1 = k then (p.1, updateExt p.2 b src) else p)) sid
      = lookupDisk d sid := by
  induction d with
  | nil => rfl
  | cons p rest ih =>
    simp only [List.map_cons, lookupDisk]
    by_cases hp : p.1 = k
    · rw [if_pos hp]
      have hps : ¬(p.1 = sid) := by rw [hp]; exact hne
      rw [if_neg hps, if_neg hps]
      exact ih
    · rw [if_neg hp]
      by_cases hs : p.1 = sid
      · rw [if_pos hs, if_pos hs]
      · rw [if_neg hs, if_neg hs]
        exact ih

theorem lookupDisk_append_ne (d : List (List Nat × DiskRecord))
    (x : List Nat × DiskRecord) (sid : List Nat) (hne : x.1 ≠ sid) :
    lookupDisk (d ++ [x]) sid = lookupDisk d sid := by
  induction d with
  | nil =>
    simp only [List.nil_append, lookupDisk]
    rw [if_neg hne]
  | cons p rest ih =>
    simp only [List.cons_append, lookupDisk]
    by_cases hp : p.1 = sid
    · rw [if_pos hp, if_pos hp]
    · rw [if_neg hp, if_neg hp]
      exact ih

theorem lookupDisk_applyCopy_ne (d : List (List Nat × DiskRecord))
    (c : List Nat × Bool × DiskRecord) (sid : List Nat) (hne : c.1 ≠ sid) :
    lookupDisk (applyCopy d c) sid = lookupDisk d sid := by
  unfold applyCopy
  cases hl : lookupDisk d c.1 with
  | some de =>
    show lookupDisk (d.map (fun p =>
        if p.1 = c.1 then (p.1, updateExt p.2 c.2.1 c.2.2) else p)) sid = _
    exact lookupDisk_map_update_ne d c.1 c.2.1 c.2.2 sid hne
  | none =>
    show lookupDisk (d ++ [(c.1, blankWithExt c.2.1 c.2.2)]) sid = _
    exact lookupDisk_append_ne d _ sid hne

theorem diskHasId_foldl_applyCopy
    (plan : List (List Nat × Bool × DiskRecord)) :
    ∀ (d : List (List Nat × DiskRecord)) (sid : List Nat),
      diskHasId (plan.foldl applyCopy d) sid = true ↔
        (diskHasId d sid = true ∨ ∃ c ∈ plan, c.1 = sid) := by
  induction plan with
  | nil =>
    intro d sid
    constructor
    · exact Or.inl
    · rintro (h | ⟨c, hc, _⟩)
      · exact h
      · exact absurd hc (List.not_mem_nil c)
  | cons c rest ih =>
    intro d sid
    rw [List.foldl_cons, ih]
    rw [diskHasId_applyCopy]
    constructor
    · rintro ((h | h) | ⟨c2, hc2, h⟩)
      · exact Or.inl h
      · exact Or.inr ⟨c, List.mem_cons_self c rest, h⟩
      · exact Or.inr ⟨c2, List.mem_cons_of_mem c hc2, h⟩
    · rintro (h | ⟨c2, hc2, h⟩)
      · exact Or.inl (Or.inl h)
      · rcases List.mem_cons.mp hc2 with rfl | hr
        · exact Or.inl (Or.inr h)
        · exact Or.inr ⟨c2, hr, h⟩

theorem lookupDisk_foldl_applyCopy_ne
    (plan : List (List Nat × Bool × DiskRecord)) :
    ∀ (d : List (List Nat × DiskRecord)) (sid : List Nat),
      (∀ c ∈ plan, c.1 ≠ sid) →
      lookupDisk (plan.foldl applyCopy d) sid = lookupDisk d sid := by
  induction plan with
  | nil => intro d sid _; rfl
  | cons c rest ih =>
    intro d sid h
    rw [List.foldl_cons]
    rw [ih (applyCopy d c) sid (fun c2 hc2 => h c2 (List.mem_cons_of_mem c hc2))]
    exact lookupDisk_applyCopy_ne d c sid (h c (List.mem_cons_self c rest))

theorem mergeIndexFold_extends (nd : List (List Nat × DiskRecord))
    (sids : List (List Nat)) :
    ∀ (acc : List (List Nat × IndexEntry) × List (List Nat)),
      ∃ t, (sids.foldl (mergeIndexFold nd) acc).1 = acc.1 ++ t := by
  induction sids with
  | nil => intro acc; exact ⟨[], (List.append_nil acc.1).symm⟩
  | cons s rest ih =>
    intro acc
    rw [List.foldl_cons]
    have hstep : ∃ u, (mergeIndexFold nd acc s).1 = acc.1 ++ u := by
      unfold mergeIndexFold
      by_cases hk : hasKey acc.1 s = true
      · rw [if_pos hk]
        exact ⟨[], (List.append_nil acc.1).symm⟩
      · rw [if_neg hk]
        cases mergeExtractAt nd s with
        | none => exact ⟨[], (List.append_nil acc.1).symm⟩
        | some p => exact ⟨[(s, mkIndexEntry s p)], rfl⟩
    obtain ⟨u, hu⟩ := hstep
    obtain ⟨t, ht⟩ := ih (mergeIndexFold nd acc s)
    exact ⟨u ++ t, by rw [ht, hu, List.append_assoc]⟩

theorem mergeIndexFold_hasKey (nd : List (List Nat × DiskRecord))
    (sid : List Nat) (sids : List (List Nat)) :
    ∀ (acc : List (List Nat × IndexEntry) × List (List Nat)),
      hasKey ((sids.foldl (mergeIndexFold nd) acc).1) sid = true ↔
        (hasKey acc.1 sid = true ∨
         (sid ∈ sids ∧ (mergeExtractAt nd sid).isSome = true)) := by
  induction sids with
  | nil =>
    intro acc
    constructor
    · exact Or.inl
    · rintro (h | ⟨hm, _⟩)
      · exact h
      · exact absurd hm (List.not_mem_nil sid)
  | cons s rest ih =>
    intro acc
    rw [List.foldl_cons, ih]
    unfold mergeIndexFold
    by_cases hk : hasKey acc.1 s = true
    · rw [if_pos hk]
      constructor
      · rintro (h | ⟨hr, hs⟩)
        · exact Or.inl h
        · exact Or.inr ⟨List.mem_cons_of_mem s hr, hs⟩
      · rintro (h | ⟨hm, hs⟩)
        · exact Or.inl h
        · rcases List.mem_cons.mp hm with rfl | hr
          · exact Or.inl hk
          · exact Or.inr ⟨hr, hs⟩
    · rw [if_neg hk]
      cases he : mergeExtractAt nd s with
      | none =>
        constructor
        · rintro (h | ⟨hr, hs⟩)
          · exact Or.inl h
          · exact Or.inr ⟨List.mem_cons_of_mem s hr, hs⟩
        · rintro (h | ⟨hm, hs⟩)
          · exact Or.inl h
          · rcases List.mem_cons.mp hm with rfl | hr
            · rw [he] at hs
              exact Bool.noConfusion hs
            · exact Or.inr ⟨hr, hs⟩
      | some p =>
        simp only [hasKey, List.any_append, List.any_cons, List.any_nil,
          Bool.or_false, Bool.or_eq_true, decide_eq_true_eq, List.mem_cons]
        by_cases hss : s = sid
        · subst hss
          constructor
          · intro _
            by_cases hx : List.any acc.1 (fun p => p.1 = s) = true
            · exact Or.inl hx
            · exact Or.inr ⟨Or.inl rfl, by rw [he]; rfl⟩
          · intro _
            exact Or.inl (Or.inr rfl)
        · have hss2 : ¬(sid = s) := fun h => hss h.symm
          tauto

theorem mergeIndexFold_added (nd : List (List Nat × DiskRecord))
    (sid : List Nat) (sids : List (List Nat)) :
    ∀ (acc : List (List Nat × IndexEntry) × List (List Nat)),
      sid ∈ (sids.foldl (mergeIndexFold nd) acc).2 ↔
        (sid ∈ acc.2 ∨
         (sid ∈ sids ∧ (mergeExtractAt nd sid).isSome = true ∧
          hasKey acc.1 sid = false)) := by
  induction sids with
  | nil =>
    intro acc
    constructor
    · exact Or.inl
    · rintro (h | ⟨hm, _⟩)
      · exact h
      · exact absurd hm (List.not_mem_nil sid)
  | cons s rest ih =>
    intro acc
    rw [List.foldl_cons, ih]
    unfold mergeIndexFold
    by_cases hk : hasKey acc.1 s = true
    · rw [if_pos hk]
      constructor
      · rintro (h | ⟨hr, hs, hnk⟩)
        · exact Or.inl h
        · exact Or.inr ⟨List.mem_cons_of_mem s hr, hs, hnk⟩
      · rintro (h | ⟨hm, hs, hnk⟩)
        · exact Or.inl h
        · rcases List.mem_cons.mp hm with rfl | hr
          · rw [hnk] at hk
            exact Bool.noConfusion hk
          · exact Or.inr ⟨hr, hs, hnk⟩
    · rw [if_neg hk]
      have hk2 : hasKey acc.1 s = false := by
        cases h : hasKey acc.1 s
        · rfl
        · exact absurd h hk
      cases he : mergeExtractAt nd s with
      | none =>
        constructor
        · rintro (h | ⟨hr, hs, hnk⟩)
          · exact Or.inl h
          · exact Or.inr ⟨List.mem_cons_of_mem s hr, hs, hnk⟩
        · rintro (h | ⟨hm, hs, hnk⟩)
          · exact Or.inl h
          · rcases List.mem_cons.mp hm with rfl | hr
            · rw [he] at hs
              exact Bool.noConfusion hs
            · exact Or.inr ⟨hr, hs, hnk⟩
      | some p =>
        by_cases hss : s = sid
        · subst hss
          constructor
          · intro _
            exact Or.inr ⟨List.mem_cons_self s rest, by rw [he]; rfl, hk2⟩
          · intro _
            exact Or.inl (List.mem_append.mpr
              (Or.inr (List.mem_singleton.mpr rfl)))
        · have hss2 : ¬(sid = s) := fun h => hss h.symm
          have happ : hasKey (acc.1 ++ [(s, mkIndexEntry s p)]) sid
              = hasKey acc.1 sid := by
            simp only [hasKey, List.any_append, List.any_cons, List.any_nil,
              Bool.or_false]
            rw [show (decide ((s, mkIndexEntry s p).1 = sid)) = false from
              decide_eq_false hss]
            rw [Bool.or_false]
          rw [show ((acc.1 ++ [(s, mkIndexEntry s p)], acc.2 ++ [s])).1
              = acc.1 ++ [(s, mkIndexEntry s p)] from rfl] at *
          constructor
          · rintro (h | ⟨hr, hs, hnk⟩)
            · rcases List.mem_append.mp h with h1 | h2
              · exact Or.inl h1
              · exact absurd (List.mem_singleton.mp h2) hss2
            · rw [happ] at hnk
              exact Or.inr ⟨List.mem_cons_of_mem s hr, hs, hnk⟩
          · rintro (h | ⟨hm, hs, hnk⟩)
            · exact Or.inl (List.mem_append.mpr (Or.inl h))
            · rcases List.mem_cons.mp hm with rfl | hr
              · exact absurd rfl hss2
              · refine Or.inr ⟨hr, hs, ?_⟩
                rw [happ]
                exact hnk

/-- A stale-namespace record whose only file is a malformed legacy `.json`
snapshot: the file exists (so the merge copies it) but `json.load` raises,
so the merge-path extraction yields nothing. -/
def badOldRecord : DiskRecord := { jsonFile := some none, jsonlFile := none }

/-- C8 counterexample: stale disk = {[88]} with a malformed record, active
disk = {[89]}, active index empty.  The merge does copy [88] into the active
namespace (first conjunct), but the index gains nothing — `added` is empty
and [88] is not indexed — although [88] is a newly copied id that was not
already indexed, contradicting the claim that the index gains exactly the
newly copied ids not already indexed. -/
theorem C8_merge_counterexample :
    diskHasId (mergeOneWorkspace ⟨[([89], trivialRecord)], 2⟩
      [⟨[([88], badOldRecord)], 1⟩] []).disk [88] = true ∧
    (mergeOneWorkspace ⟨[([89], trivialRecord)], 2⟩
      [⟨[([88], badOldRecord)], 1⟩] []).added = [] ∧
    hasKey (mergeOneWorkspace ⟨[([89], trivialRecord)], 2⟩
      [⟨[([88], badOldRecord)], 1⟩] []).entries [88] = false := by decide

/-- C8 (amended): for a duplicate-namespace group with active folder
`active`, stale folders `olds` and active-index entries `entries0`, under
the well-formedness hypothesis that every stale on-disk record has at least
one record file (true of the source, whose id sets are enumerated from the
files themselves): (1) the merged disk ids are exactly the active ids plus
the stale ids; (2) records already in the active namespace are untouched;
(3) the pre-existing index entries are preserved verbatim as a prefix;
(4) `added` contains exactly the ids present in some stale namespace,
absent from the active namespace, not already indexed, AND whose record in
the merged directory parses via the merge path's legacy-first extraction;
(5) the final index keys are the old keys plus the added ids.  Source lines
1277-1305 (copies) and 1317-1366 (index update). -/
theorem C8_merge_amended (active : MergeFolder) (olds : List MergeFolder)
    (entries0 : List (List Nat × IndexEntry))
    (hwf : ∀ old ∈ olds, ∀ p ∈ old.disk,
      p.2.jsonFile.isSome = true ∨ p.2.jsonlFile.isSome = true) :
    (∀ sid, diskHasId (mergeOneWorkspace active olds entries0).disk sid = true ↔
        (diskHasId active.disk sid = true ∨
         ∃ old ∈ olds, diskHasId old.disk sid = true)) ∧
    (∀ sid, diskHasId active.disk sid = true →
        lookupDisk (mergeOneWorkspace active olds entries0).disk sid =
          lookupDisk active.disk sid) ∧
    (∃ t, (mergeOneWorkspace active olds entries0).entries = entries0 ++ t) ∧
    (∀ sid, sid ∈ (mergeOneWorkspace active olds entries0).added ↔
        ((∃ old ∈ olds, diskHasId old.disk sid = true) ∧
         diskHasId active.disk sid = false ∧
         hasKey entries0 sid = false ∧
         (mergeExtractAt (newActiveDisk active olds) sid).isSome = true)) ∧
    (∀ sid, hasKey (mergeOneWorkspace active olds entries0).entries sid = true ↔
        (hasKey entries0 sid = true ∨
         sid ∈ (mergeOneWorkspace active olds entries0).added)) := by
  refine ⟨?_, ?_, ?_, ?_, ?_⟩
  · intro sid
    show diskHasId ((mergePlan active.disk olds).foldl applyCopy active.disk)
      sid = true ↔ _
    rw [diskHasId_foldl_applyCopy]
    constructor
    · rintro (h | hex)
      · exact Or.inl h
      · exact Or.inr ((mergePlan_mem_iff active.disk olds sid hwf).mp hex).1
    · rintro (h | hold)
      · exact Or.inl h
      · by_cases ha : diskHasId active.disk sid = true
        · exact Or.inl ha
        · refine Or.inr ((mergePlan_mem_iff active.disk olds sid hwf).mpr
            ⟨hold, ?_⟩)
          cases h2 : diskHasId active.disk sid
          · rfl
          · exact absurd h2 ha
  · intro sid ha
    show lookupDisk ((mergePlan active.disk olds).foldl applyCopy active.disk)
      sid = _
    apply lookupDisk_foldl_applyCopy_ne
    intro c hc hceq
    have h2 := mergePlan_not_active active.disk olds c hc
    rw [hceq] at h2
    rw [h2] at ha
    exact Bool.noConfusion ha
  · exact mergeIndexFold_extends (newActiveDisk active olds)
      ((mergePlan active.disk olds).map (fun c => c.1)) (entries0, [])
  · intro sid
    show sid ∈ (((mergePlan active.disk olds).map (fun c => c.1)).foldl
        (mergeIndexFold (newActiveDisk active olds)) (entries0, [])).2 ↔ _
    rw [mergeIndexFold_added]
    constructor
    · rintro (h | ⟨hm, hs, hnk⟩)
      · exact absurd h (List.not_mem_nil sid)
      · obtain ⟨c, hc, hc1⟩ := List.mem_map.mp hm
        have h2 := (mergePlan_mem_iff active.disk olds sid hwf).mp ⟨c, hc, hc1⟩
        exact ⟨h2.1, h2.2, hnk, hs⟩
    · rintro ⟨hold, hact, hnk, hs⟩
      obtain ⟨c, hc, hc1⟩ :=
        (mergePlan_mem_iff active.disk olds sid hwf).mpr ⟨hold, hact⟩
      exact Or.inr ⟨List.mem_map.mpr ⟨c, hc, hc1⟩, hs, hnk⟩
  · intro sid
    show hasKey (((mergePlan active.disk olds).map (fun c => c.1)).foldl
        (mergeIndexFold (newActiveDisk active olds)) (entries0, [])).1 sid
          = true ↔
      (hasKey entries0 sid = true ∨
       sid ∈ (((mergePlan active.disk olds).map (fun c => c.1)).foldl
          (mergeIndexFold (newActiveDisk active olds)) (entries0, [])).2)
    rw [mergeIndexFold_hasKey, mergeIndexFold_added]
    constructor
    · rintro (h | ⟨hm, hs⟩)
      · exact Or.inl h
      · by_cases hk : hasKey entries0 sid = true
        · exact Or.inl hk
        · have hk2 : hasKey entries0 sid = false := by
            cases h2 : hasKey entries0 sid
            · rfl
            · exact absurd h2 hk
          exact Or.inr (Or.inr ⟨hm, hs, hk2⟩)
    · rintro (h | (h | ⟨hm, hs, _⟩))
      · exact Or.inl h
      · exact absurd h (List.not_mem_nil sid)
      · exact Or.inr ⟨hm, hs⟩

/-- Scenario C, active folder Q: disk = {[89]} (id Y), newest mtime. -/
def scenarioCActive : MergeFolder := ⟨[([89], trivialRecord)], 2⟩

/-- Scenario C, stale folder P: disk = {[88], [89]} (ids X and Y). -/
def scenarioCOlds : List MergeFolder :=
  [⟨[([88], trivialRecord), ([89], trivialRecord)], 1⟩]

/-- Scenario C: Q's index already holds Y. -/
def scenarioCEntries : List (List Nat × IndexEntry) := [([89], dummyEntry [89])]

/-- Witness for C8 at Scenario C (stale disk {X=[88], Y=[89]}, active disk
{Y}, active index {Y}): after the merge the active disk holds both ids, the
index gained exactly X ([88] added, [89] not), and Y's active record is
untouched. -/
theorem C8_merge_witness :
    diskHasId (mergeOneWorkspace scenarioCActive scenarioCOlds
      scenarioCEntries).disk [88] = true ∧
    diskHasId (mergeOneWorkspace scenarioCActive scenarioCOlds
      scenarioCEntries).disk [89] = true ∧
    [88] ∈ (mergeOneWorkspace scenarioCActive scenarioCOlds
      scenarioCEntries).added ∧
    ¬([89] ∈ (mergeOneWorkspace scenarioCActive scenarioCOlds
      scenarioCEntries).added) ∧
    hasKey (mergeOneWorkspace scenarioCActive scenarioCOlds
      scenarioCEntries).entries [88] = true ∧
    lookupDisk (mergeOneWorkspace scenarioCActive scenarioCOlds
      scenarioCEntries).disk [89] = some trivialRecord := by
  obtain ⟨ha, hb, hc, hd, he⟩ :=
    C8_merge_amended scenarioCActive scenarioCOlds scenarioCEntries (by decide)
  have hadd : [88] ∈ (mergeOneWorkspace scenarioCActive scenarioCOlds
      scenarioCEntries).added :=
    (hd [88]).mpr ⟨⟨⟨[([88], trivialRecord), ([89], trivialRecord)], 1⟩,
      by decide, by decide⟩, by decide, by decide, by decide⟩
  refine ⟨?_, ?_, hadd, ?_, ?_, ?_⟩
  · exact (ha [88]).mpr (Or.inr
      ⟨⟨[([88], trivialRecord), ([89], trivialRecord)], 1⟩, by decide, by decide⟩)
  · exact (ha [89]).mpr (Or.inl (by decide))
  · intro hm
    exact absurd ((hd [89]).mp hm).2.1 (by decide)
  · exact (he [88]).mpr (Or.inr hadd)
  · rw [hb [89] (by decide)]
    decide

/-! ## Transactional persistence (claim C10)

The repair run's database writes (source lines 725-735 together with the
synchronizer's writes at lines 591-598).  The `sqlite3` Python module opens
an implicit transaction at the first data-modifying statement; nothing is
persisted until `conn.commit()`, and a connection abandoned before a commit
(the exception path, source line 747) rolls the transaction back.  The model
replays a script of operations against a committed store and a pending
transaction view: a `put` updates only the pending view, a `commit` makes
the pending view the committed store, and a script ending without a commit
leaves the committed store as it was. -/

inductive DbOp where
  | put (key value : List Char)
  | commit
  deriving DecidableEq, Repr

/-- `INSERT OR REPLACE INTO ItemTable (key, value)`: upsert on the key. -/
def putK (st : List (List Char × List Char)) (k v : List Char) :
    List (List Char × List Char) :=
  if st.any (fun p => p.1 = k) then
    st.map (fun p => if p.1 = k then (k, v) else p)
  else st ++ [(k, v)]

def runOps : List (List Char × List Char) → List (List Char × List Char) →
    List DbOp → List (List Char × List Char)
  | committed, _, [] => committed
  | committed, pending, .put k v :: rest =>
      runOps committed (putK pending k v) rest
  | _, pending, .commit :: rest => runOps pending pending rest

/-- Run a write script from a committed store `init`; the result is the
committed store after the connection is gone (uncommitted work is lost). -/
def runScript (init : List (List Char × List Char)) (ops : List DbOp) :
    List (List Char × List Char) :=
  runOps init init ops

/-- The non-dry repair run's write script (source lines 725-735, with the
two cache writes of lines 591-598 in between): the index key, the model
cache key, the state cache key, then the single `conn.commit()`. -/
def repairWriteScript (i m s : List Char) : List DbOp :=
  [DbOp.put "chat.ChatSessionStore.index".data i,
   DbOp.put "agentSessions.model.cache".data m,
   DbOp.put "agentSessions.state.cache".data s,
   DbOp.commit]

/-- C10 (confirmed): the repair write script contains exactly one commit,
placed last; truncating the script anywhere before the commit (the
exception path of source line 747 abandons the connection there) leaves the
committed store exactly as it was; and the full script persists precisely
the three upserts. -/
theorem C10_single_transaction (i m s : List Char)
    (init : List (List Char × List Char)) (k : Nat) (hk : k ≤ 3) :
    (repairWriteScript i m s).count DbOp.commit = 1 ∧
    (repairWriteScript i m s).getLast? = some DbOp.commit ∧
    runScript init ((repairWriteScript i m s).take k) = init ∧
    runScript init (repairWriteScript i m s) =
      putK (putK (putK init "chat.ChatSessionStore.index".data i)
        "agentSessions.model.cache".data m)
        "agentSessions.state.cache".data s := by
  refine ⟨?_, rfl, ?_, rfl⟩
  · simp [repairWriteScript, List.count_cons]
  · interval_cases k
    · rfl
    · rfl
    · rfl
    · rfl

/-- Witness for C10 at concrete values: aborting after two of the three
writes persists nothing, and the full script persists all three keys. -/
theorem C10_single_transaction_witness :
    runScript [] ((repairWriteScript "i".data "m".data "s".data).take 2)
      = [] ∧
    runScript [] (repairWriteScript "i".data "m".data "s".data) =
      putK (putK (putK [] "chat.ChatSessionStore.index".data "i".data)
        "agentSessions.model.cache".data "m".data)
        "agentSessions.state.cache".data "s".data := by
  obtain ⟨_, _, h3, h4⟩ :=
    C10_single_transaction "i".data "m".data "s".data [] 2 (by decide)
  exact ⟨h3, h4⟩
